import Mathlib

/-!
Verification of the workflow execution-engine compiler
(`inference/enterprise/workflows/execution_engine`): a shallow embedding of
`compiler/graph_constructor.py` and
`introspection/connections_discovery.py`, together with theorems settling
the specification claims about graph construction, type checking,
structural validation (acyclicity, terminal reachability, branch
isolation) and connection discovery.

Node identifiers, selectors and manifests follow the source; helper
modules that are not part of the provided sources (selector utilities,
`validate_reference_types`, the wildcard kind) are modelled from the
specification and marked as such in their doc comments.
-/

namespace WorkflowCompiler

/-- A kind: a named type tag attached to selector endpoints
(`entities/types.py`). -/
structure Kind where
  name : String
deriving DecidableEq, Repr

/-- Modelled from the spec: the distinguished wildcard kind that is
compatible with every other kind (`entities/types.py` is not under the
provided sources; §3 of the spec describes the wildcard kind, implemented
as a sentinel kind value). -/
def WILDCARD_KIND : Kind := ⟨"*"⟩

/-- Modelled from the spec: the three selected-element tags of an allowed
reference, §3: `selected_element ∈ \x7binput, step_output, step\x7d`. -/
def INPUT_AS_SELECTED_ELEMENT : String := "input"

/-- Modelled from the spec: see `INPUT_AS_SELECTED_ELEMENT`. -/
def STEP_OUTPUT_AS_SELECTED_ELEMENT : String := "step_output"

/-- Modelled from the spec: see `INPUT_AS_SELECTED_ELEMENT`.  The value
marks a flow-control reference. -/
def STEP_AS_SELECTED_ELEMENT : String := "step"

/-- Node-kind attribute values, from `workflows/constants.py`. -/
def INPUT_NODE_KIND : String := "INPUT_NODE"

/-- See `INPUT_NODE_KIND`; from `workflows/constants.py`. -/
def STEP_NODE_KIND : String := "STEP_NODE"

/-- See `INPUT_NODE_KIND`; from `workflows/constants.py`. -/
def OUTPUT_NODE_KIND : String := "OUTPUT_NODE"

/-- Modelled from the spec: the selector grammar of §6
(`$inputs.<name>` | `$steps.<name>` | `$steps.<name>.<property>`); the
textual selectors of the source are embedded as their parse trees, since
the string utilities (`compiler/utils.py`) are not under the provided
sources. -/
inductive Selector where
  | input (name : String)
  | step (name : String)
  | stepOutput (name prop : String)
deriving DecidableEq, Repr

/-- Graph node identifiers: the source uses the selector strings
`$inputs.<n>` / `$steps.<n>` and the constructed output name as node ids;
the three disjoint namespaces are embedded as constructors. -/
inductive NodeId where
  | input (name : String)
  | step (name : String)
  | output (name : String)
deriving DecidableEq, Repr

/-- Modelled from the spec: `is_input_selector` of `compiler/utils.py`
(not under the provided sources) recognises `$inputs.<name>`. -/
def is_input_selector : Selector → Bool
  | .input _ => true
  | _ => false

/-- Modelled from the spec: `is_step_selector` of `compiler/utils.py`
recognises a pure step selector `$steps.<name>` (two dot-chunks). -/
def is_step_selector : Selector → Bool
  | .step _ => true
  | _ => false

/-- Modelled from the spec: `is_step_output_selector` of
`compiler/utils.py` recognises `$steps.<name>.<property>` (three
dot-chunks). -/
def is_step_output_selector : Selector → Bool
  | .stepOutput _ _ => true
  | _ => false

/-- Modelled from the spec: `get_step_selector_from_its_output` of
`compiler/utils.py` keeps the first two dot-chunks of a selector, mapping
`$steps.<n>.<p>` to the node id `$steps.<n>` and leaving the two-chunk
forms unchanged. -/
def get_step_selector_from_its_output : Selector → NodeId
  | .input n => .input n
  | .step n => .step n
  | .stepOutput n _ => .step n

/-- Modelled from the spec: `construct_input_selector` of
`compiler/utils.py` builds the node id `$inputs.<name>`. -/
def construct_input_selector (input_name : String) : NodeId := .input input_name

/-- Modelled from the spec: `construct_step_selector` of
`compiler/utils.py` builds the node id `$steps.<name>`. -/
def construct_step_selector (step_name : String) : NodeId := .step step_name

/-- Modelled from the spec: `construct_output_name` of
`compiler/utils.py` builds the output node id (§4.3: id = `out.<name>`). -/
def construct_output_name (name : String) : NodeId := .output name

/-- One allowed reference of a selector property:
`\x7bselected_element, kind\x7d` (`entities/types.py` reference
declarations, as consumed by the source). -/
structure ReferenceDefinition where
  selected_element : String
  kind : List Kind
deriving DecidableEq, Repr

/-- A parsed selector property of a step manifest, as produced by
`get_step_selectors` and consumed by `add_edge_for_step`:
the property name, its allowed references and the concrete selector
value found in the manifest. -/
structure SelectorDefinition where
  property_name : String
  allowed_references : List ReferenceDefinition
  selector : Selector
deriving DecidableEq, Repr

/-- One declared output of a block for a concrete manifest:
`\x7bname, kind\x7d`. -/
structure OutputDefinition where
  name : String
  kind : List Kind
deriving DecidableEq, Repr

/-- A step manifest.  Modelled from the spec for the registry side: the
block registry and the selectors parser are not under the provided
sources, so each step carries the parsed selector properties that
`get_step_selectors(step_manifest)` would return and the output
definitions that `block_class.get_actual_outputs(manifest)` would return
for the step's concrete manifest (§3, §4.1). -/
structure StepManifest where
  name : String
  selectors : List SelectorDefinition
  outputs : List OutputDefinition
deriving DecidableEq, Repr

/-- A workflow input declaration: `\x7bname, kind\x7d`
(`entities/workflows_specification.py` input types, as consumed by the
source: the attached definition exposes `.kind` as a list of kinds). -/
structure InputSpec where
  name : String
  kind : List Kind
deriving DecidableEq, Repr

/-- A workflow output declaration (`entities/outputs.py`, `JsonField`):
a result name and the selector it projects. -/
structure JsonField where
  name : String
  selector : Selector
deriving DecidableEq, Repr

/-- A parsed workflow definition (`compiler/entities.py`):
inputs, steps and outputs. -/
structure ParsedWorkflowDefinition where
  inputs : List InputSpec
  steps : List StepManifest
  outputs : List JsonField
deriving DecidableEq, Repr

/-- The definition attached to a graph node (the `definition` node
attribute of the source). -/
inductive NodeDef where
  | inputDef (spec : InputSpec)
  | stepDef (manifest : StepManifest)
  | outputDef (spec : JsonField)
deriving DecidableEq, Repr

/-- Compile-time errors.  The constructors carry the error classes used
by the source (`workflows/errors.py` names, as imported by
`graph_constructor.py`); `typeMismatchError` is modelled from the spec
(§4.4, §7) because `reference_type_checker.py` is not under the provided
sources. -/
inductive WorkflowError where
  | executionGraphStructureError
  | invalidReferenceTargetError (selector : NodeId)
  | typeMismatchError
  | conditionalBranchesClashError
  | danglingExecutionBranchError (offenders : List NodeId)
deriving DecidableEq, Repr

/-- The error-class name of an error value, for comparing error kinds. -/
def WorkflowError.kindName : WorkflowError → String
  | .executionGraphStructureError => "ExecutionGraphStructureError"
  | .invalidReferenceTargetError _ => "InvalidReferenceTargetError"
  | .typeMismatchError => "TypeMismatchError"
  | .conditionalBranchesClashError => "ConditionalBranchesClashError"
  | .danglingExecutionBranchError _ => "DanglingExecutionBranchError"

/-- The attribute record of a graph node: the `kind` attribute, the
`definition` attribute and the flow-control marker
(`FLOW_CONTROL_NODE_KEY`, absent encoded as `false`). -/
structure NodeData where
  kind : Option String := none
  definition : Option NodeDef := none
  flow_control : Bool := false
deriving DecidableEq, Repr

/-- A directed graph in the style of `networkx.DiGraph` as used by the
source: insertion-ordered nodes with attribute records, and directed
edges without attributes (the source never attaches edge attributes). -/
structure Digraph where
  nodes : List (NodeId × NodeData)
  edges : List (NodeId × NodeId)
deriving DecidableEq, Repr

/-- The empty graph (`nx.DiGraph()`). -/
def Digraph.empty : Digraph := ⟨[], []⟩

/-- The node ids of a graph, in insertion order. -/
def Digraph.nodeIds (g : Digraph) : List NodeId := g.nodes.map (·.1)

/-- `G.has_node(n)`. -/
def Digraph.hasNode (g : Digraph) (n : NodeId) : Bool := g.nodes.any (·.1 == n)

/-- The attribute record of a node, when present. -/
def Digraph.lookupData (g : Digraph) (n : NodeId) : Option NodeData :=
  (g.nodes.find? (·.1 == n)).map (·.2)

/-- `G.add_node(n, kind=..., definition=...)`: re-adding an existing node
updates the given attributes in place (keeping other attributes), a new
node is appended. -/
def Digraph.add_node (g : Digraph) (n : NodeId) (kind : String) (defn : NodeDef) : Digraph :=
  if g.hasNode n then
    { g with nodes := g.nodes.map (fun p =>
        if p.1 == n then (p.1, { p.2 with kind := some kind, definition := some defn }) else p) }
  else
    { g with nodes := g.nodes ++ [(n, { kind := some kind, definition := some defn })] }

/-- `networkx` auto-creates missing endpoints of an added edge, with an
empty attribute record. -/
def Digraph.ensureNode (g : Digraph) (n : NodeId) : Digraph :=
  if g.hasNode n then g else { g with nodes := g.nodes ++ [(n, {})] }

/-- `G.add_edge(u, v)`: adds missing endpoints, adds the (plain,
attribute-free) edge unless already present. -/
def Digraph.add_edge (g : Digraph) (u v : NodeId) : Digraph :=
  let g := (g.ensureNode u).ensureNode v
  if (u, v) ∈ g.edges then g else { g with edges := g.edges ++ [(u, v)] }

/-- `G.nodes[n][FLOW_CONTROL_NODE_KEY] = True`: sets the flow-control
marker on an existing node's attribute record. -/
def Digraph.set_flow_control (g : Digraph) (n : NodeId) : Digraph :=
  { g with nodes := g.nodes.map (fun p =>
      if p.1 == n then (p.1, { p.2 with flow_control := true }) else p) }

/-- `G.reverse()`: same nodes and attributes, each edge swapped. -/
def Digraph.reverse (g : Digraph) : Digraph :=
  { g with edges := g.edges.map (fun e => (e.2, e.1)) }

/-- `G.remove_node(n)`: drops the node and all incident edges. -/
def Digraph.removeNode (g : Digraph) (n : NodeId) : Digraph :=
  { nodes := g.nodes.filter (fun p => p.1 ≠ n),
    edges := g.edges.filter (fun e => e.1 ≠ n ∧ e.2 ≠ n) }

/-- `G.successors(n)`: targets of the edges leaving `n`, in edge
insertion order. -/
def Digraph.successorsOf (g : Digraph) (n : NodeId) : List NodeId :=
  (g.edges.filter (fun e => e.1 == n)).map (·.2)

/-- Insert each element of `xs` into `s` unless already present
(set-union in insertion order, as Python's `set.update` observed through
membership). -/
def addNew (s : List NodeId) (xs : List NodeId) : List NodeId :=
  xs.foldl (fun acc x => if x ∈ acc then acc else acc ++ [x]) s

/-- Targets of the edges leaving the set `s`. -/
def succsIn (g : Digraph) (s : List NodeId) : List NodeId :=
  (g.edges.filter (fun e => decide (e.1 ∈ s))).map (·.2)

/-- One round of the reachability closure: add every direct successor of
the current set. -/
def stepClosure (g : Digraph) (s : List NodeId) : List NodeId :=
  addNew s (succsIn g s)

/-- Iterate the closure until a fixed point (fuel-bounded; the fuel used
by `reachSet` always suffices). -/
def closureAux (g : Digraph) : Nat → List NodeId → List NodeId
  | 0, s => s
  | fuel + 1, s => if stepClosure g s = s then s else closureAux g fuel (stepClosure g s)

/-- The set of nodes reachable from `start` (including `start`), the set
semantics of `nx.dfs_postorder_nodes(G, start)` / `nx.descendants` as the
source consumes them. -/
def reachSet (g : Digraph) (start : NodeId) : List NodeId :=
  closureAux g (g.edges.length + 1) [start]

/-- `nx.descendants(G, n)`: nodes reachable from `n`, excluding `n`. -/
def descendants (g : Digraph) (n : NodeId) : List NodeId :=
  (reachSet g n).filter (fun x => x ≠ n)

/-- Kahn's algorithm (the semantics of `nx.topological_sort`): repeatedly
emit a node of the remaining set with no incoming edge from the remaining
set; on a cycle no such node exists and the output is cut short. -/
def kahnAux (g : Digraph) : Nat → List NodeId → List NodeId
  | 0, _ => []
  | fuel + 1, remaining =>
    match remaining.find? (fun n => !(g.edges.any (fun e => e.2 == n && decide (e.1 ∈ remaining)))) with
    | none => []
    | some n => n :: kahnAux g fuel (remaining.filter (fun x => x ≠ n))

/-- A topological order of the graph's nodes (complete exactly when the
graph is acyclic). -/
def topological_sort (g : Digraph) : List NodeId :=
  kahnAux g g.nodes.length g.nodeIds

/-- `nx.is_directed_acyclic_graph`: the topological sort covers every
node. -/
def is_directed_acyclic_graph (g : Digraph) : Bool :=
  (topological_sort g).length == g.nodeIds.length

/-- The edge relation of a graph, as a proposition. -/
@[reducible] def edgeRel (g : Digraph) (u v : NodeId) : Prop := (u, v) ∈ g.edges

/-- `Reaches g u v`: there is a directed path from `u` to `v` (possibly
empty). -/
def Reaches (g : Digraph) : NodeId → NodeId → Prop :=
  Relation.ReflTransGen (edgeRel g)

/-- A well-formed graph: node ids are distinct and every edge endpoint is
a node.  Every graph built by the constructor satisfies this. -/
def WFGraph (g : Digraph) : Prop :=
  g.nodeIds.Nodup ∧ ∀ e ∈ g.edges, e.1 ∈ g.nodeIds ∧ e.2 ∈ g.nodeIds

/-- `get_nodes_of_specific_kind` (`compiler/utils.py`, modelled from its
use in the source): the nodes whose `kind` attribute equals the given
value. -/
def get_nodes_of_specific_kind (g : Digraph) (kind : String) : List NodeId :=
  (g.nodes.filter (fun p => p.2.kind == some kind)).map (·.1)

/-- Modelled from the spec: `is_flow_control_step` of `compiler/utils.py`
reads the node's `FLOW_CONTROL_NODE_KEY` attribute, absent meaning
`false` (the attribute is set by `establish_flow_control_edge`, which is
under the provided sources). -/
def is_flow_control_step (g : Digraph) (node : NodeId) : Bool :=
  ((g.lookupData node).map (·.flow_control)).getD false

/-- Modelled from the spec: `get_step_selectors`
(`introspection/selectors_parser.py`, not under the provided sources)
yields the selector properties of a step manifest; the embedding carries
them on the manifest. -/
def get_step_selectors (step_manifest : StepManifest) : List SelectorDefinition :=
  step_manifest.selectors

/-- `add_input_nodes_for_graph`: one input node per workflow input, id
`$inputs.<name>`, `kind=INPUT_NODE`, the input spec as `definition`. -/
def add_input_nodes_for_graph (inputs : List InputSpec) (execution_graph : Digraph) : Digraph :=
  inputs.foldl
    (fun g input_spec =>
      g.add_node (construct_input_selector input_spec.name) INPUT_NODE_KIND (.inputDef input_spec))
    execution_graph

/-- `add_steps_nodes_for_graph`: one step node per step, id
`$steps.<name>`, `kind=STEP_NODE`, the manifest as `definition`. -/
def add_steps_nodes_for_graph (steps : List StepManifest) (execution_graph : Digraph) : Digraph :=
  steps.foldl
    (fun g step =>
      g.add_node (construct_step_selector step.name) STEP_NODE_KIND (.stepDef step))
    execution_graph

/-- `add_output_nodes_for_graph`: one output node per workflow output. -/
def add_output_nodes_for_graph (outputs : List JsonField) (execution_graph : Digraph) : Digraph :=
  outputs.foldl
    (fun g output_spec =>
      g.add_node (construct_output_name output_spec.name) OUTPUT_NODE_KIND (.outputDef output_spec))
    execution_graph

/-- `verify_edge_is_created_between_existing_nodes`: both endpoints must
already be nodes, otherwise `InvalidReferenceTargetError` naming the
missing selector. -/
def verify_edge_is_created_between_existing_nodes (execution_graph : Digraph)
    (start stop : NodeId) : Except WorkflowError Unit :=
  if ¬ execution_graph.hasNode start then
    .error (.invalidReferenceTargetError start)
  else if ¬ execution_graph.hasNode stop then
    .error (.invalidReferenceTargetError stop)
  else
    .ok ()

/-- `step_definition_allows_flow_control_references`: at least one
allowed reference with `selected_element == STEP_AS_SELECTED_ELEMENT`. -/
def step_definition_allows_flow_control_references
    (step_selector_definition : SelectorDefinition) : Bool :=
  (step_selector_definition.allowed_references.filter
    (fun definition => definition.selected_element == STEP_AS_SELECTED_ELEMENT)).length > 0

/-- `establish_flow_control_edge`: a pure step reference must be
permitted by some `step`-element allowed reference (otherwise
`ExecutionGraphStructureError`); then the plain edge
`step → referenced step` is added and the *source node* is marked with
the flow-control attribute. -/
def establish_flow_control_edge (step_selector : NodeId)
    (step_selector_definition : SelectorDefinition)
    (execution_graph : Digraph) : Except WorkflowError Digraph :=
  if ¬ step_definition_allows_flow_control_references step_selector_definition then
    .error .executionGraphStructureError
  else
    let other_node_selector := get_step_selector_from_its_output step_selector_definition.selector
    .ok ((execution_graph.add_edge step_selector other_node_selector).set_flow_control step_selector)

/-- `get_kind_of_value_provided_in_step_output`: the kinds declared by
the referred block for the named output of the concrete manifest; an
unknown output name yields the empty list. -/
def get_kind_of_value_provided_in_step_output (step_manifest : StepManifest)
    (step_property : String) : List Kind :=
  (step_manifest.outputs.filter (fun output => output.name == step_property)).foldl
    (fun acc output => acc ++ output.kind) []

/-- Modelled from the spec: `validate_reference_types`
(`compiler/reference_type_checker.py`, not under the provided sources),
§4.4: compatibility holds iff the expected and actual kind sets
intersect, with the wildcard kind matching everything on either side;
failure raises the type-mismatch error of §7. -/
def kinds_compatible (expected actual : List Kind) : Bool :=
  expected.any (fun e => e.name == WILDCARD_KIND.name) ||
  actual.any (fun a => a.name == WILDCARD_KIND.name) ||
  expected.any (fun e => actual.any (fun a => a.name == e.name))

/-- Modelled from the spec: see `kinds_compatible`. -/
def validate_reference_types (expected actual : List Kind) : Except WorkflowError Unit :=
  if kinds_compatible expected actual then .ok () else .error .typeMismatchError

/-- The actual kinds of the producer side of a data reference, as read by
`add_edge_for_step`: the input node's declared kind for an input
selector, the referred block's kinds for the named output for a
step-output selector. -/
def actual_input_kind_of (execution_graph : Digraph)
    (step_selector_definition : SelectorDefinition) : List Kind :=
  if is_input_selector step_selector_definition.selector then
    match (execution_graph.lookupData
        (get_step_selector_from_its_output step_selector_definition.selector)).bind (·.definition) with
    | some (.inputDef spec) => spec.kind
    | _ => []
  else
    match step_selector_definition.selector with
    | .stepOutput n prop =>
      match (execution_graph.lookupData (.step n)).bind (·.definition) with
      | some (.stepDef m) => get_kind_of_value_provided_in_step_output m prop
      | _ => []
    | _ => []

/-- The expected kinds as computed by `add_edge_for_step` (source lines
217–221): the concatenation of the kinds of *all* allowed references of
the property, with no filtering by `selected_element`. -/
def expected_input_kind_of (step_selector_definition : SelectorDefinition) : List Kind :=
  step_selector_definition.allowed_references.flatMap (fun ref => ref.kind)

/-- The expected kinds as the *specification* words them (§4.4): the
union of the kinds of exactly those allowed references whose
`selected_element` matches the form of the selector.  This definition
follows the spec's words and exists only to be compared against
`expected_input_kind_of`, which follows the source. -/
def expected_kinds_per_spec (step_selector_definition : SelectorDefinition) : List Kind :=
  let matching_element :=
    if is_input_selector step_selector_definition.selector then INPUT_AS_SELECTED_ELEMENT
    else STEP_OUTPUT_AS_SELECTED_ELEMENT
  (step_selector_definition.allowed_references.filter
    (fun ref => ref.selected_element == matching_element)).flatMap (fun ref => ref.kind)

/-- `add_edge_for_step`: verify both endpoints exist; a pure step
selector takes the flow-control path; otherwise the producer kinds are
type-checked against the kinds of all allowed references and the data
edge `producer → consumer` is added. -/
def add_edge_for_step (execution_graph : Digraph) (step_selector : NodeId)
    (step_selector_definition : SelectorDefinition) : Except WorkflowError Digraph :=
  let other_step_selector := get_step_selector_from_its_output step_selector_definition.selector
  match verify_edge_is_created_between_existing_nodes execution_graph step_selector other_step_selector with
  | .error e => .error e
  | .ok _ =>
    if is_step_selector step_selector_definition.selector then
      establish_flow_control_edge step_selector step_selector_definition execution_graph
    else
      match validate_reference_types (expected_input_kind_of step_selector_definition)
          (actual_input_kind_of execution_graph step_selector_definition) with
      | .error e => .error e
      | .ok _ => .ok (execution_graph.add_edge other_step_selector step_selector)

/-- `add_edges_for_step`: one edge per selector property of the step. -/
def add_edges_for_step (execution_graph : Digraph) (step_selector : NodeId) :
    List SelectorDefinition → Except WorkflowError Digraph
  | [] => .ok execution_graph
  | d :: rest =>
    match add_edge_for_step execution_graph step_selector d with
    | .error e => .error e
    | .ok g2 => add_edges_for_step g2 step_selector rest

/-- `add_steps_edges`: edges for every step of the definition. -/
def add_steps_edges (execution_graph : Digraph) :
    List StepManifest → Except WorkflowError Digraph
  | [] => .ok execution_graph
  | step :: rest =>
    match add_edges_for_step execution_graph (construct_step_selector step.name)
        (get_step_selectors step) with
    | .error e => .error e
    | .ok g2 => add_steps_edges g2 rest

/-- `add_edges_for_outputs`: for each workflow output, collapse a
step-output selector to its step node, verify existence and add the edge
to the output node. -/
def add_edges_for_outputs (execution_graph : Digraph) :
    List JsonField → Except WorkflowError Digraph
  | [] => .ok execution_graph
  | output :: rest =>
    let output_selector := get_step_selector_from_its_output output.selector
    let output_name := construct_output_name output.name
    match verify_edge_is_created_between_existing_nodes execution_graph output_selector output_name with
    | .error e => .error e
    | .ok _ => add_edges_for_outputs (execution_graph.add_edge output_selector output_name) rest

/-- `construct_graph`: the three node-adding passes, then step edges,
then output edges. -/
def construct_graph (workflow_definition : ParsedWorkflowDefinition) :
    Except WorkflowError Digraph :=
  let g := add_input_nodes_for_graph workflow_definition.inputs Digraph.empty
  let g := add_steps_nodes_for_graph workflow_definition.steps g
  let g := add_output_nodes_for_graph workflow_definition.outputs g
  match add_steps_edges g workflow_definition.steps with
  | .error e => .error e
  | .ok g2 => add_edges_for_outputs g2 workflow_definition.outputs

/-- `get_nodes_that_do_not_produce_outputs`: step nodes whose block
declares zero outputs for the step's concrete manifest (treated as
side-effecting terminals). -/
def get_nodes_that_do_not_produce_outputs (execution_graph : Digraph) : List NodeId :=
  (get_nodes_of_specific_kind execution_graph STEP_NODE_KIND).filter
    (fun step_node =>
      match (execution_graph.lookupData step_node).bind (·.definition) with
      | some (.stepDef m) => m.outputs.isEmpty
      | _ => false)

/-- The terminal set of the reachability check: output nodes united with
the zero-output step nodes. -/
def nodes_that_must_be_reached (execution_graph : Digraph) : List NodeId :=
  addNew (get_nodes_of_specific_kind execution_graph OUTPUT_NODE_KIND)
    (get_nodes_that_do_not_produce_outputs execution_graph)

/-- `get_nodes_that_are_reachable_from_pointed_ones_in_reversed_graph`:
the union over the pointed nodes of the nodes reachable from each in the
reversed graph. -/
def get_nodes_that_are_reachable_from_pointed_ones_in_reversed_graph
    (execution_graph : Digraph) (pointed_nodes : List NodeId) : List NodeId :=
  let reversed_graph := execution_graph.reverse
  pointed_nodes.foldl (fun result p => addNew result (reachSet reversed_graph p)) []

/-- `verify_each_node_reach_at_least_one_output`: every node must reach
an output node or a zero-output step node, else
`DanglingExecutionBranchError` listing every offender. -/
def verify_each_node_reach_at_least_one_output (execution_graph : Digraph) :
    Except WorkflowError Unit :=
  let all_nodes := execution_graph.nodeIds
  let nodes_reaching_output :=
    get_nodes_that_are_reachable_from_pointed_ones_in_reversed_graph execution_graph
      (nodes_that_must_be_reached execution_graph)
  let nodes_not_reaching_output := all_nodes.filter (fun n => decide (n ∉ nodes_reaching_output))
  if nodes_not_reaching_output.length > 0 then
    .error (.danglingExecutionBranchError nodes_not_reaching_output)
  else
    .ok ()

/-- Insert `v` into the successor set recorded for key `k`
(`defaultdict(set)` update, insertion-ordered). -/
def succInsert (m : List (NodeId × List NodeId)) (k v : NodeId) : List (NodeId × List NodeId) :=
  match m with
  | [] => [(k, [v])]
  | (k0, vs) :: rest =>
    if k0 == k then (k0, if v ∈ vs then vs else vs ++ [v]) :: rest
    else (k0, vs) :: succInsert rest k v

/-- Look a key up in a successor map, defaulting to the empty set. -/
def succLookup (m : List (NodeId × List NodeId)) (k : NodeId) : List NodeId :=
  (((m.find? (fun p => p.1 == k))).map (·.2)).getD []

/-- `detect_steps_with_more_than_one_parent_step`: fold every edge whose
endpoints are both step nodes into a child → parent-set map and keep the
children with more than one recorded parent. -/
def detect_steps_with_more_than_one_parent_step (execution_graph : Digraph) : List NodeId :=
  let steps_nodes := get_nodes_of_specific_kind execution_graph STEP_NODE_KIND
  let steps_parents := execution_graph.edges.foldl
    (fun acc e =>
      if e.1 ∈ steps_nodes ∧ e.2 ∈ steps_nodes then succInsert acc e.2 e.1 else acc)
    []
  (steps_parents.filter (fun p => p.2.length > 1)).map (·.1)

/-- `construct_reversed_graph_with_steps_only`: reverse the graph and
drop every node (with incident edges) whose `kind` attribute is not
`STEP_NODE`. -/
def construct_reversed_graph_with_steps_only (execution_graph : Digraph) : Digraph :=
  let reversed_steps_graph := execution_graph.reverse
  reversed_steps_graph.nodes.foldl
    (fun acc p => if p.2.kind ≠ some STEP_NODE_KIND then acc.removeNode p.1 else acc)
    reversed_steps_graph

/-- `construct_path_to_step_through_selected_parent`: the descendants of
the parent in the reversed step graph, with the parent and the
investigated step added, ordered by the reversed topological order. -/
def construct_path_to_step_through_selected_parent (graph : Digraph)
    (topological_order : List NodeId) (parent_step step : NodeId) : List NodeId :=
  let s1 := descendants graph parent_step
  let s2 := if parent_step ∈ s1 then s1 else s1 ++ [parent_step]
  let s3 := if step ∈ s2 then s2 else s2 ++ [step]
  topological_order.filter (fun n => decide (n ∈ s3))

/-- `denote_flow_control_steps_successors_in_normal_flow`: walk the
reversed path pairwise; whenever the current node is a flow-control
step, record the previous node as the branch successor that must have
been chosen and count the flow-control step. -/
def denote_flow_control_steps_successors_in_normal_flow (reversed_steps_graph : Digraph)
    (reversed_flow_path : List NodeId)
    (control_flow_steps_successors : List (NodeId × List NodeId)) :
    List (NodeId × List NodeId) × Nat :=
  match reversed_flow_path with
  | [] => (control_flow_steps_successors, 0)
  | first :: rest =>
    let r := rest.foldl
      (fun (acc : (List (NodeId × List NodeId)) × Nat × NodeId) node =>
        if is_flow_control_step reversed_steps_graph node then
          (succInsert acc.1 node acc.2.2, acc.2.1 + 1, node)
        else
          (acc.1, acc.2.1, node))
      (control_flow_steps_successors, 0, first)
    (r.1, r.2.1)

/-- The loop body of `verify_multi_parent_step_execution_paths`: for each
parent of the investigated step in the reversed step graph, build the
reversed path through that parent and denote flow-control successors,
tracking the maximum number of flow-control steps seen on a single
path. -/
def gather_control_flow_data (reversed_steps_graph : Digraph)
    (reversed_topological_order : List NodeId) (step : NodeId) :
    (List (NodeId × List NodeId)) × Nat :=
  (reversed_steps_graph.successorsOf step).foldl
    (fun acc parent_of_investigated_step =>
      let reversed_flow_path := construct_path_to_step_through_selected_parent
        reversed_steps_graph reversed_topological_order parent_of_investigated_step step
      let r := denote_flow_control_steps_successors_in_normal_flow
        reversed_steps_graph reversed_flow_path acc.1
      (r.1, max r.2 acc.2))
    ([], 0)

/-- `verify_multi_parent_step_execution_paths`: hazard 2 (more distinct
flow-control steps recorded than the maximum on any single path), then
hazard 1 (some flow-control step recorded with more than one branch
successor); either raises `ConditionalBranchesClashError`. -/
def verify_multi_parent_step_execution_paths (reversed_steps_graph : Digraph)
    (reversed_topological_order : List NodeId) (step : NodeId) :
    Except WorkflowError Unit :=
  let acc := gather_control_flow_data reversed_steps_graph reversed_topological_order step
  if acc.1.length > acc.2 then
    .error .conditionalBranchesClashError
  else if acc.1.any (fun e => decide (e.2.length > 1)) then
    .error .conditionalBranchesClashError
  else
    .ok ()

/-- The loop of the branch-isolation pass over every multi-parent step. -/
def verify_steps_execution_paths (reversed_steps_graph : Digraph)
    (reversed_topological_order : List NodeId) :
    List NodeId → Except WorkflowError Unit
  | [] => .ok ()
  | step :: rest =>
    match verify_multi_parent_step_execution_paths reversed_steps_graph
        reversed_topological_order step with
    | .error e => .error e
    | .ok _ => verify_steps_execution_paths reversed_steps_graph reversed_topological_order rest

/-- `verify_each_node_step_has_parent_in_the_same_branch`: the
branch-isolation pass. -/
def verify_each_node_step_has_parent_in_the_same_branch (execution_graph : Digraph) :
    Except WorkflowError Unit :=
  let steps_with_more_than_one_parent :=
    detect_steps_with_more_than_one_parent_step execution_graph
  if steps_with_more_than_one_parent.isEmpty then
    .ok ()
  else
    let reversed_steps_graph := construct_reversed_graph_with_steps_only execution_graph
    let reversed_topological_order := topological_sort reversed_steps_graph
    verify_steps_execution_paths reversed_steps_graph reversed_topological_order
      steps_with_more_than_one_parent

/-- `prepare_execution_graph`: construct, check acyclicity
(`ExecutionGraphStructureError` on a cycle), check terminal reachability,
check branch isolation. -/
def prepare_execution_graph (workflow_definition : ParsedWorkflowDefinition) :
    Except WorkflowError Digraph :=
  match construct_graph workflow_definition with
  | .error e => .error e
  | .ok execution_graph =>
    if ¬ is_directed_acyclic_graph execution_graph then
      .error .executionGraphStructureError
    else
      match verify_each_node_reach_at_least_one_output execution_graph with
      | .error e => .error e
      | .ok _ =>
        match verify_each_node_step_has_parent_in_the_same_branch execution_graph with
        | .error e => .error e
        | .ok _ => .ok execution_graph

/-- Extract the graph of a successful compilation stage (used only to
name concrete graphs in theorem statements). -/
def exceptGraph (e : Except WorkflowError Digraph) : Digraph :=
  match e with
  | .ok g => g
  | .error _ => Digraph.empty

/-- `introspection/entities.py` `BlockPropertyDefinition`: one selector
property of one block, as indexed by connection discovery. -/
structure BlockPropertyDefinition where
  block_type : String
  manifest_type_identifier : String
  property_name : String
  compatible_element : String
deriving DecidableEq, Repr

/-- A schema-level selector property: name and allowed references (the
`selectors` of a parsed block manifest schema). -/
structure SchemaSelector where
  property_name : String
  allowed_references : List ReferenceDefinition
deriving DecidableEq, Repr

/-- One block of the registry as consumed by connection discovery.
Modelled from the spec on the schema side: `schema_parser.py` is not
under the provided sources, so the description carries the parsed
selector properties that `parse_block_manifest_schema` would produce
(§4.1). -/
structure BlockDescription where
  block_class : String
  manifest_type_identifier : String
  selectors : List SchemaSelector
deriving DecidableEq, Repr

/-- The registry catalogue handed to connection discovery. -/
structure BlocksDescription where
  blocks : List BlockDescription
deriving DecidableEq, Repr

/-- Insert a property definition into a set unless already present. -/
def bpdInsert (l : List BlockPropertyDefinition) (pd : BlockPropertyDefinition) :
    List BlockPropertyDefinition :=
  if pd ∈ l then l else l ++ [pd]

/-- `defaultdict(set)` keyed by kind name: add one property definition
under one key. -/
def kmAdd (m : List (String × List BlockPropertyDefinition)) (key : String)
    (pd : BlockPropertyDefinition) : List (String × List BlockPropertyDefinition) :=
  match m with
  | [] => [(key, [pd])]
  | (k0, vs) :: rest =>
    if k0 == key then (k0, bpdInsert vs pd) :: rest else (k0, vs) :: kmAdd rest key pd

/-- Look a kind name up in the consumers index, defaulting to the empty
set. -/
def kmLookup (m : List (String × List BlockPropertyDefinition)) (key : String) :
    List BlockPropertyDefinition :=
  ((m.find? (fun p => p.1 == key)).map (·.2)).getD []

/-- The property definition recorded by `get_all_inputs_kind_major` for
one block, one selector property and one allowed reference. -/
def block_property_definition_of (b : BlockDescription) (sel : SchemaSelector)
    (ref : ReferenceDefinition) : BlockPropertyDefinition :=
  ⟨b.block_class, b.manifest_type_identifier, sel.property_name, ref.selected_element⟩

/-- The inner kind loop of `get_all_inputs_kind_major`: record the
property definition under each kind declared by the allowed reference. -/
def add_input_kinds_of_reference (b : BlockDescription) (sel : SchemaSelector)
    (ref : ReferenceDefinition) (m : List (String × List BlockPropertyDefinition)) :
    List (String × List BlockPropertyDefinition) :=
  ref.kind.foldl (fun m k => kmAdd m k.name (block_property_definition_of b sel ref)) m

/-- The allowed-reference loop of `get_all_inputs_kind_major`: a
`step`-element reference is skipped entirely (`continue`); otherwise the
property definition is recorded under each declared kind and then under
the wildcard kind. -/
def add_input_references_of_selector (b : BlockDescription) (sel : SchemaSelector)
    (m : List (String × List BlockPropertyDefinition)) :
    List (String × List BlockPropertyDefinition) :=
  sel.allowed_references.foldl
    (fun m ref =>
      if ref.selected_element == STEP_AS_SELECTED_ELEMENT then m
      else
        kmAdd (add_input_kinds_of_reference b sel ref m) WILDCARD_KIND.name
          (block_property_definition_of b sel ref))
    m

/-- The selector loop of `get_all_inputs_kind_major`. -/
def add_input_selectors_of_block (b : BlockDescription)
    (m : List (String × List BlockPropertyDefinition)) :
    List (String × List BlockPropertyDefinition) :=
  b.selectors.foldl (fun m sel => add_input_references_of_selector b sel m) m

/-- `get_all_inputs_kind_major` (`connections_discovery.py`): the
consumers-by-kind index over every block of the registry. -/
def get_all_inputs_kind_major (blocks_description : BlocksDescription) :
    List (String × List BlockPropertyDefinition) :=
  blocks_description.blocks.foldl (fun m b => add_input_selectors_of_block b m) []

/-- A concrete kind used by the test scenarios. -/
def kNumber : Kind := ⟨"number"⟩

/-- A second concrete kind used by the test scenarios. -/
def kOther : Kind := ⟨"other"⟩

/-- Scenario 5 of §8: one `if` whose branches `B → C` and `E → F` merge
at `G`. -/
def scenario5 : ParsedWorkflowDefinition :=
  { inputs := [⟨"c", [kNumber]⟩],
    steps :=
      [ ⟨"if",
          [ ⟨"cond", [⟨INPUT_AS_SELECTED_ELEMENT, [kNumber]⟩], .input "c"⟩,
            ⟨"step_if_true", [⟨STEP_AS_SELECTED_ELEMENT, []⟩], .step "B"⟩,
            ⟨"step_if_false", [⟨STEP_AS_SELECTED_ELEMENT, []⟩], .step "E"⟩ ],
          [⟨"y", [kNumber]⟩]⟩,
        ⟨"B", [], [⟨"y", [kNumber]⟩]⟩,
        ⟨"E", [], [⟨"y", [kNumber]⟩]⟩,
        ⟨"C", [⟨"x", [⟨STEP_OUTPUT_AS_SELECTED_ELEMENT, [kNumber]⟩], .stepOutput "B" "y"⟩],
          [⟨"y", [kNumber]⟩]⟩,
        ⟨"F", [⟨"x", [⟨STEP_OUTPUT_AS_SELECTED_ELEMENT, [kNumber]⟩], .stepOutput "E" "y"⟩],
          [⟨"y", [kNumber]⟩]⟩,
        ⟨"G",
          [ ⟨"x", [⟨STEP_OUTPUT_AS_SELECTED_ELEMENT, [kNumber]⟩], .stepOutput "C" "y"⟩,
            ⟨"y", [⟨STEP_OUTPUT_AS_SELECTED_ELEMENT, [kNumber]⟩], .stepOutput "F" "y"⟩ ],
          [⟨"z", [kNumber]⟩]⟩ ],
    outputs := [⟨"result", .stepOutput "G" "z"⟩] }

/-- The execution graph constructed for scenario 5. -/
def scenario5_graph : Digraph := exceptGraph (construct_graph scenario5)

/-- Scenario 3 of §8: two steps referencing each other's outputs. -/
def scenario_cycle : ParsedWorkflowDefinition :=
  { inputs := [],
    steps :=
      [ ⟨"a", [⟨"x", [⟨STEP_OUTPUT_AS_SELECTED_ELEMENT, [kNumber]⟩], .stepOutput "b" "y"⟩],
          [⟨"y", [kNumber]⟩]⟩,
        ⟨"b", [⟨"x", [⟨STEP_OUTPUT_AS_SELECTED_ELEMENT, [kNumber]⟩], .stepOutput "a" "y"⟩],
          [⟨"y", [kNumber]⟩]⟩ ],
    outputs := [⟨"r", .stepOutput "a" "y"⟩] }

/-- A workflow with a pure step reference on a property with no
`step`-element allowed reference (impermissible flow-control
reference). -/
def scenario_flow_misuse : ParsedWorkflowDefinition :=
  { inputs := [],
    steps :=
      [ ⟨"A", [⟨"next", [⟨INPUT_AS_SELECTED_ELEMENT, [kNumber]⟩], .step "B"⟩],
          [⟨"y", [kNumber]⟩]⟩,
        ⟨"B", [], [⟨"y", [kNumber]⟩]⟩ ],
    outputs := [⟨"r", .stepOutput "B" "y"⟩] }

/-- A workflow whose step `m` references output `bad` of step `n`, which
exists but declares no output of that name. -/
def scenario_missing_property : ParsedWorkflowDefinition :=
  { inputs := [],
    steps :=
      [ ⟨"n", [], [⟨"out1", [kNumber]⟩]⟩,
        ⟨"m", [⟨"x", [⟨STEP_OUTPUT_AS_SELECTED_ELEMENT, [kNumber]⟩], .stepOutput "n" "bad"⟩],
          [⟨"z", [kNumber]⟩]⟩ ],
    outputs := [⟨"r", .stepOutput "m" "z"⟩] }

/-- A workflow referencing a step node that does not exist. -/
def scenario_ghost_step : ParsedWorkflowDefinition :=
  { inputs := [],
    steps :=
      [ ⟨"m", [⟨"x", [⟨STEP_OUTPUT_AS_SELECTED_ELEMENT, [kNumber]⟩], .stepOutput "ghost" "y"⟩],
          [⟨"z", [kNumber]⟩]⟩ ],
    outputs := [⟨"r", .stepOutput "m" "z"⟩] }

/-- A selector definition whose allowed references mix an
`input`-element reference (kinds `\x7bother\x7d`) and a
`step_output`-element reference (kinds `\x7bnumber\x7d`), with an input
selector value. -/
def mixed_refs_definition : SelectorDefinition :=
  ⟨"p",
    [ ⟨INPUT_AS_SELECTED_ELEMENT, [kOther]⟩,
      ⟨STEP_OUTPUT_AS_SELECTED_ELEMENT, [kNumber]⟩ ],
    .input "x"⟩

/-- A two-node graph for exercising `add_edge_for_step` directly: the
input `x` of kind `number` and the consumer step `s`. -/
def mixed_refs_graph : Digraph :=
  add_steps_nodes_for_graph [⟨"s", [mixed_refs_definition], []⟩]
    (add_input_nodes_for_graph [⟨"x", [kNumber]⟩] Digraph.empty)

/-- Two step nodes `A` and `B` with no edges, the base for contrasting a
flow-control edge with a data edge over the same node pair. -/
def two_steps_base : Digraph :=
  add_steps_nodes_for_graph
    [ ⟨"A", [], [⟨"y", [kNumber]⟩]⟩,
      ⟨"B", [], [⟨"z", [kNumber]⟩]⟩ ]
    Digraph.empty

/-- The graph obtained by adding the flow-control edge `A → B` (step `A`
redirects to step `B`). -/
def two_steps_flow_control_graph : Digraph :=
  exceptGraph (establish_flow_control_edge (.step "A")
    ⟨"step_if_true", [⟨STEP_AS_SELECTED_ELEMENT, []⟩], .step "B"⟩ two_steps_base)

/-- The graph obtained by adding the data edge `A → B` (step `B`
consumes `$steps.A.y`). -/
def two_steps_data_graph : Digraph :=
  exceptGraph (add_edge_for_step two_steps_base (.step "B")
    ⟨"x", [⟨STEP_OUTPUT_AS_SELECTED_ELEMENT, [kNumber]⟩], .stepOutput "A" "y"⟩)

/-- Three step nodes where `M` is the target of a flow-control edge from
`A` and of a data edge from `B`. -/
def mixed_parents_graph : Digraph :=
  exceptGraph (add_steps_edges
    (add_steps_nodes_for_graph
      [ ⟨"A", [⟨"step_if_true", [⟨STEP_AS_SELECTED_ELEMENT, []⟩], .step "M"⟩],
          [⟨"y", [kNumber]⟩]⟩,
        ⟨"B", [], [⟨"y", [kNumber]⟩]⟩,
        ⟨"M", [⟨"x", [⟨STEP_OUTPUT_AS_SELECTED_ELEMENT, [kNumber]⟩], .stepOutput "B" "y"⟩],
          [⟨"z", [kNumber]⟩]⟩ ]
      Digraph.empty)
    [ ⟨"A", [⟨"step_if_true", [⟨STEP_AS_SELECTED_ELEMENT, []⟩], .step "M"⟩],
        [⟨"y", [kNumber]⟩]⟩,
      ⟨"B", [], [⟨"y", [kNumber]⟩]⟩,
      ⟨"M", [⟨"x", [⟨STEP_OUTPUT_AS_SELECTED_ELEMENT, [kNumber]⟩], .stepOutput "B" "y"⟩],
        [⟨"z", [kNumber]⟩]⟩ ])

/-- A registry with a single block whose single selector property allows
only `step`-element references. -/
def step_only_registry : BlocksDescription :=
  ⟨[⟨"blk", "BlkManifest", [⟨"nextstep", [⟨STEP_AS_SELECTED_ELEMENT, []⟩]⟩]⟩]⟩

/-- Duplicate-name inputs for the duplicate-handling theorems. -/
def duplicate_inputs : List InputSpec := [⟨"x", [kNumber]⟩, ⟨"x", [kOther]⟩]

/-- Duplicate-name steps for the duplicate-handling theorems. -/
def duplicate_steps : List StepManifest := [⟨"s", [], []⟩, ⟨"s", [], [⟨"y", [kNumber]⟩]⟩]

/-- Duplicate-name outputs for the duplicate-handling theorems. -/
def duplicate_outputs : List JsonField := [⟨"o", .input "x"⟩, ⟨"o", .step "s"⟩]

/-- The offender list of the terminal-reachability check: the nodes not
reaching any node of the terminal set (the value listed by
`DanglingExecutionBranchError`). -/
def dangling_nodes (g : Digraph) : List NodeId :=
  g.nodeIds.filter (fun n => decide
    (n ∉ get_nodes_that_are_reachable_from_pointed_ones_in_reversed_graph g
      (nodes_that_must_be_reached g)))

theorem addNew_cons (s : List NodeId) (a : NodeId) (l : List NodeId) :
    addNew s (a :: l) = addNew (if a ∈ s then s else s ++ [a]) l := rfl

theorem mem_addNew (s xs : List NodeId) (x : NodeId) :
    x ∈ addNew s xs ↔ x ∈ s ∨ x ∈ xs := by
  induction xs generalizing s with
  | nil => simp [addNew]
  | cons a l ih =>
    rw [addNew_cons]
    by_cases h : a ∈ s
    · simp only [if_pos h, ih]
      constructor
      · rintro (hs | hl)
        · exact Or.inl hs
        · exact Or.inr (List.mem_cons_of_mem _ hl)
      · rintro (hs | hal)
        · exact Or.inl hs
        · rcases List.mem_cons.mp hal with rfl | hl
          · exact Or.inl h
          · exact Or.inr hl
    · simp only [if_neg h, ih, List.mem_append, List.mem_singleton, List.mem_cons]
      tauto

theorem addNew_eq_append (s xs : List NodeId) :
    ∃ t, addNew s xs = s ++ t ∧ ∀ y ∈ t, y ∈ xs := by
  induction xs generalizing s with
  | nil => exact ⟨[], by simp [addNew], by simp⟩
  | cons a l ih =>
    rw [addNew_cons]
    by_cases h : a ∈ s
    · rw [if_pos h]
      obtain ⟨t, ht, hmem⟩ := ih s
      exact ⟨t, ht, fun y hy => List.mem_cons_of_mem _ (hmem y hy)⟩
    · rw [if_neg h]
      obtain ⟨t, ht, hmem⟩ := ih (s ++ [a])
      refine ⟨a :: t, by simpa using ht, ?_⟩
      intro y hy
      rcases List.mem_cons.mp hy with rfl | hy
      · exact List.mem_cons_self _ _
      · exact List.mem_cons_of_mem _ (hmem y hy)

theorem nodup_addNew (s xs : List NodeId) (h : s.Nodup) : (addNew s xs).Nodup := by
  induction xs generalizing s with
  | nil => exact h
  | cons a l ih =>
    rw [addNew_cons]
    by_cases ha : a ∈ s
    · rw [if_pos ha]; exact ih s h
    · rw [if_neg ha]
      refine ih (s ++ [a]) ?_
      simp [List.nodup_append, h, List.disjoint_singleton, ha]

theorem subset_addNew (s xs : List NodeId) : s ⊆ addNew s xs :=
  fun _ hx => (mem_addNew s xs _).mpr (Or.inl hx)

theorem mem_succsIn (g : Digraph) (s : List NodeId) (y : NodeId) :
    y ∈ succsIn g s ↔ ∃ u, u ∈ s ∧ (u, y) ∈ g.edges := by
  simp only [succsIn, List.mem_map, List.mem_filter, decide_eq_true_eq]
  constructor
  · rintro ⟨e, ⟨he, hu⟩, rfl⟩
    exact ⟨e.1, hu, he⟩
  · rintro ⟨u, hu, he⟩
    exact ⟨(u, y), ⟨he, hu⟩, rfl⟩

theorem subset_stepClosure (g : Digraph) (s : List NodeId) : s ⊆ stepClosure g s :=
  subset_addNew s (succsIn g s)

theorem nodup_stepClosure (g : Digraph) (s : List NodeId) (h : s.Nodup) :
    (stepClosure g s).Nodup :=
  nodup_addNew s (succsIn g s) h

theorem stepClosure_length_lt (g : Digraph) (s : List NodeId)
    (h : stepClosure g s ≠ s) : s.length < (stepClosure g s).length := by
  obtain ⟨t, ht, -⟩ := addNew_eq_append s (succsIn g s)
  rw [stepClosure] at *
  rw [ht] at h ⊢
  rcases t with - | ⟨a, t⟩
  · simp at h
  · simp

theorem mem_stepClosure_target (g : Digraph) (s : List NodeId) (y : NodeId)
    (hy : y ∈ stepClosure g s) : y ∈ s ∨ y ∈ g.edges.map (·.2) := by
  rcases (mem_addNew _ _ _).mp hy with h | h
  · exact Or.inl h
  · obtain ⟨u, -, he⟩ := (mem_succsIn g s y).mp h
    exact Or.inr (List.mem_map.mpr ⟨(u, y), he, rfl⟩)

theorem subset_closureAux (g : Digraph) (n : Nat) (s : List NodeId) :
    s ⊆ closureAux g n s := by
  induction n generalizing s with
  | zero => exact fun _ h => h
  | succ n ih =>
    rw [closureAux]
    split
    · exact fun _ h => h
    · exact fun x hx => ih (stepClosure g s) (subset_stepClosure g s hx)

theorem closureAux_sound (g : Digraph) (x : NodeId) (n : Nat) (s : List NodeId)
    (hs : ∀ y ∈ s, Reaches g x y) : ∀ y ∈ closureAux g n s, Reaches g x y := by
  induction n generalizing s with
  | zero => exact hs
  | succ n ih =>
    rw [closureAux]
    split
    · exact hs
    · refine ih (stepClosure g s) ?_
      intro y hy
      rcases (mem_addNew _ _ _).mp hy with h | h
      · exact hs y h
      · obtain ⟨u, hu, he⟩ := (mem_succsIn g s y).mp h
        exact Relation.ReflTransGen.tail (hs u hu) he

theorem closure_invariant_length (g : Digraph) (x : NodeId) (s : List NodeId)
    (hnd : s.Nodup) (hinv : ∀ y ∈ s, y = x ∨ y ∈ g.edges.map (·.2)) :
    s.length ≤ g.edges.length + 1 := by
  have hsub : s ⊆ x :: g.edges.map (·.2) := by
    intro y hy
    rcases hinv y hy with rfl | h
    · exact List.mem_cons_self _ _
    · exact List.mem_cons_of_mem _ h
  have := (hnd.subperm hsub).length_le
  simpa [Nat.add_comm] using this

theorem closureAux_fix (g : Digraph) (x : NodeId) : ∀ (n : Nat) (s : List NodeId),
    s.Nodup → (∀ y ∈ s, y = x ∨ y ∈ g.edges.map (·.2)) →
    g.edges.length + 1 < n + s.length →
    stepClosure g (closureAux g n s) = closureAux g n s := by
  intro n
  induction n with
  | zero =>
    intro s hnd hinv hlt
    have := closure_invariant_length g x s hnd hinv
    omega
  | succ n ih =>
    intro s hnd hinv hlt
    rw [closureAux]
    split
    · assumption
    · rename_i hne
      have hgrow := stepClosure_length_lt g s hne
      refine ih (stepClosure g s) (nodup_stepClosure g s hnd) ?_ (by omega)
      intro y hy
      rcases mem_stepClosure_target g s y hy with h | h
      · exact hinv y h
      · exact Or.inr h

theorem closed_of_fix (g : Digraph) (R : List NodeId)
    (hfix : stepClosure g R = R) :
    ∀ u y, u ∈ R → (u, y) ∈ g.edges → y ∈ R := by
  intro u y hu he
  have : y ∈ stepClosure g R :=
    (mem_addNew _ _ _).mpr (Or.inr ((mem_succsIn g R y).mpr ⟨u, hu, he⟩))
  rwa [hfix] at this

theorem mem_reachSet (g : Digraph) (x y : NodeId) :
    y ∈ reachSet g x ↔ Reaches g x y := by
  constructor
  · intro hy
    refine closureAux_sound g x _ [x] ?_ y hy
    intro z hz
    rcases List.mem_singleton.mp hz with rfl
    exact Relation.ReflTransGen.refl
  · intro hr
    have hfix : stepClosure g (reachSet g x) = reachSet g x := by
      refine closureAux_fix g x (g.edges.length + 1) [x] (by simp) ?_ (by simp)
      intro y hy
      rcases List.mem_singleton.mp hy with rfl
      exact Or.inl rfl
    induction hr with
    | refl => exact subset_closureAux g _ [x] (List.mem_singleton.mpr rfl)
    | tail hrt he ih => exact closed_of_fix g _ hfix _ _ ih he

theorem mem_edges_reverse (g : Digraph) (a b : NodeId) :
    (a, b) ∈ g.reverse.edges ↔ (b, a) ∈ g.edges := by
  simp only [Digraph.reverse, List.mem_map]
  constructor
  · rintro ⟨e, he, heq⟩
    cases heq
    exact he
  · intro h
    exact ⟨(b, a), h, rfl⟩

theorem reaches_reverse (g : Digraph) (a b : NodeId) :
    Reaches g.reverse a b ↔ Reaches g b a := by
  constructor
  · intro h
    induction h with
    | refl => exact Relation.ReflTransGen.refl
    | tail hrt he ih =>
      exact Relation.ReflTransGen.head ((mem_edges_reverse g _ _).mp he) ih
  · intro h
    induction h with
    | refl => exact Relation.ReflTransGen.refl
    | tail hrt he ih =>
      exact Relation.ReflTransGen.head ((mem_edges_reverse g _ _).mpr he) ih

theorem mem_reach_union_aux (g : Digraph) (pointed : List NodeId) (acc : List NodeId)
    (x : NodeId) :
    x ∈ pointed.foldl (fun result p => addNew result (reachSet g.reverse p)) acc ↔
      x ∈ acc ∨ ∃ p ∈ pointed, x ∈ reachSet g.reverse p := by
  induction pointed generalizing acc with
  | nil => simp
  | cons a l ih =>
    rw [List.foldl_cons, ih, mem_addNew]
    constructor
    · rintro ((h | h) | ⟨p, hp, hx⟩)
      · exact Or.inl h
      · exact Or.inr ⟨a, List.mem_cons_self _ _, h⟩
      · exact Or.inr ⟨p, List.mem_cons_of_mem _ hp, hx⟩
    · rintro (h | ⟨p, hp, hx⟩)
      · exact Or.inl (Or.inl h)
      · rcases List.mem_cons.mp hp with rfl | hp
        · exact Or.inl (Or.inr hx)
        · exact Or.inr ⟨p, hp, hx⟩

theorem mem_reach_union (g : Digraph) (pointed : List NodeId) (x : NodeId) :
    x ∈ get_nodes_that_are_reachable_from_pointed_ones_in_reversed_graph g pointed ↔
      ∃ p ∈ pointed, Reaches g x p := by
  rw [get_nodes_that_are_reachable_from_pointed_ones_in_reversed_graph,
    mem_reach_union_aux]
  simp only [List.not_mem_nil, false_or]
  constructor
  · rintro ⟨p, hp, hx⟩
    exact ⟨p, hp, (reaches_reverse g p x).mp ((mem_reachSet g.reverse p x).mp hx)⟩
  · rintro ⟨p, hp, hx⟩
    exact ⟨p, hp, (mem_reachSet g.reverse p x).mpr ((reaches_reverse g p x).mpr hx)⟩

theorem verify_reach_eq (g : Digraph) :
    verify_each_node_reach_at_least_one_output g =
      if (dangling_nodes g).length > 0 then
        .error (.danglingExecutionBranchError (dangling_nodes g))
      else
        .ok () := rfl

theorem mem_dangling_nodes (g : Digraph) (u : NodeId) :
    u ∈ dangling_nodes g ↔
      u ∈ g.nodeIds ∧ ¬ ∃ t ∈ nodes_that_must_be_reached g, Reaches g u t := by
  rw [dangling_nodes, List.mem_filter]
  simp only [decide_eq_true_eq]
  rw [mem_reach_union]

/-- C3.  For every graph, the terminal-reachability check fails with
`DanglingExecutionBranchError` exactly when some node cannot reach any
terminal — where the terminal set is the output nodes together with the
step nodes whose block declares zero outputs for the step's concrete
manifest — and the error lists exactly the offending nodes; when every
node reaches some terminal the check passes without error.  Reachability
is the path relation of the graph (the check computes it by search from
each terminal in the reversed graph). -/
theorem terminal_reachability_check_correct (g : Digraph) :
    (verify_each_node_reach_at_least_one_output g = .ok () ↔
      ∀ u ∈ g.nodeIds, ∃ t ∈ nodes_that_must_be_reached g, Reaches g u t) ∧
    (∀ u : NodeId,
      (∃ l, verify_each_node_reach_at_least_one_output g =
          .error (.danglingExecutionBranchError l) ∧ u ∈ l) ↔
        (u ∈ g.nodeIds ∧ ¬ ∃ t ∈ nodes_that_must_be_reached g, Reaches g u t)) := by
  constructor
  · constructor
    · intro hok u hu
      by_contra hno
      have huD : u ∈ dangling_nodes g := (mem_dangling_nodes g u).mpr ⟨hu, hno⟩
      have hpos : (dangling_nodes g).length > 0 :=
        List.length_pos.mpr (List.ne_nil_of_mem huD)
      rw [verify_reach_eq, if_pos hpos] at hok
      exact absurd hok (by simp)
    · intro hall
      have hD : dangling_nodes g = [] := by
        rw [List.eq_nil_iff_forall_not_mem]
        intro u hu
        obtain ⟨hmem, hno⟩ := (mem_dangling_nodes g u).mp hu
        exact hno (hall u hmem)
      rw [verify_reach_eq, hD]
      simp
  · intro u
    constructor
    · rintro ⟨l, hl, hul⟩
      rw [verify_reach_eq] at hl
      by_cases hpos : (dangling_nodes g).length > 0
      · rw [if_pos hpos] at hl
        have hld : l = dangling_nodes g := by
          injection hl with h
          injection h with h2
          exact h2.symm
        exact (mem_dangling_nodes g u).mp (hld ▸ hul)
      · rw [if_neg hpos] at hl
        exact absurd hl (by simp)
    · intro hu
      have huD : u ∈ dangling_nodes g := (mem_dangling_nodes g u).mpr hu
      have hpos : (dangling_nodes g).length > 0 :=
        List.length_pos.mpr (List.ne_nil_of_mem huD)
      exact ⟨dangling_nodes g, by rw [verify_reach_eq, if_pos hpos], huD⟩

/-- C1.  The branch-isolation pass raises `ConditionalBranchesClashError`
for a multi-parent step exactly when (hazard 1) some flow-control step
recorded along the reversed step-only paths into it maps to more than one
branch successor, or (hazard 2) the number of distinct flow-control steps
recorded across all those paths exceeds the maximum number of
flow-control steps counted on any single reversed path; in particular,
for scenario 5 (one `if` whose branches `B → C` and `E → F` merge at `G`)
the multi-parent set is exactly `G` and compilation raises the error. -/
theorem branch_isolation_raises_iff_hazards :
    (∀ (rg : Digraph) (τ : List NodeId) (m : NodeId),
      verify_multi_parent_step_execution_paths rg τ m =
          .error .conditionalBranchesClashError ↔
        ((∃ e ∈ (gather_control_flow_data rg τ m).1, 1 < e.2.length) ∨
          (gather_control_flow_data rg τ m).2 <
            (gather_control_flow_data rg τ m).1.length)) ∧
    detect_steps_with_more_than_one_parent_step scenario5_graph = [NodeId.step "G"] ∧
    verify_each_node_step_has_parent_in_the_same_branch scenario5_graph =
      .error .conditionalBranchesClashError ∧
    prepare_execution_graph scenario5 = .error .conditionalBranchesClashError := by
  refine ⟨?_, by rfl, by rfl, by rfl⟩
  intro rg τ m
  rw [verify_multi_parent_step_execution_paths]
  by_cases h2 : (gather_control_flow_data rg τ m).1.length >
      (gather_control_flow_data rg τ m).2
  · simp only [if_pos h2]
    constructor
    · intro _
      exact Or.inr h2
    · intro _
      trivial
  · rw [if_neg h2]
    by_cases h1 : (gather_control_flow_data rg τ m).1.any (fun e => decide (e.2.length > 1))
    · rw [if_pos h1]
      constructor
      · intro _
        refine Or.inl ?_
        obtain ⟨e, he, hp⟩ := List.any_eq_true.mp h1
        exact ⟨e, he, by simpa using hp⟩
      · intro _
        rfl
    · rw [if_neg h1]
      constructor
      · intro h
        exact absurd h (by simp)
      · rintro (⟨e, he, hp⟩ | h)
        · exact absurd (List.any_eq_true.mpr ⟨e, he, by simpa using hp⟩) h1
        · exact absurd h h2

theorem kahnAux_subset (g : Digraph) :
    ∀ (fuel : Nat) (r : List NodeId), ∀ x ∈ kahnAux g fuel r, x ∈ r := by
  intro fuel
  induction fuel with
  | zero => intro r x hx; simp [kahnAux] at hx
  | succ n ih =>
    intro r x hx
    rw [kahnAux] at hx
    rcases hfind : r.find?
        (fun n => !(g.edges.any (fun e => e.2 == n && decide (e.1 ∈ r)))) with - | n0
    · rw [hfind] at hx; simp at hx
    · rw [hfind] at hx
      rcases List.mem_cons.mp hx with rfl | hx
      · exact List.mem_of_find?_eq_some hfind
      · exact List.mem_of_mem_filter (ih _ x hx)

theorem kahnAux_nodup (g : Digraph) :
    ∀ (fuel : Nat) (r : List NodeId), r.Nodup → (kahnAux g fuel r).Nodup := by
  intro fuel
  induction fuel with
  | zero => intro r _; simp [kahnAux]
  | succ n ih =>
    intro r hr
    rw [kahnAux]
    rcases hfind : r.find?
        (fun n => !(g.edges.any (fun e => e.2 == n && decide (e.1 ∈ r)))) with - | n0
    · simp
    · refine List.nodup_cons.mpr ⟨?_, ih _ (hr.filter _)⟩
      intro hmem
      have := kahnAux_subset g n _ _ hmem
      have := List.of_mem_filter this
      simp at this

theorem length_filter_ne (r : List NodeId) (n : NodeId) (hnd : r.Nodup) (hn : n ∈ r) :
    (r.filter (fun x => decide (x ≠ n))).length = r.length - 1 := by
  induction r with
  | nil => simp at hn
  | cons a r ih =>
    rcases List.nodup_cons.mp hnd with ⟨ha, hr⟩
    rw [List.filter_cons]
    by_cases h : a = n
    · subst h
      have hfa : (decide (a ≠ a)) = false := by simp
      rw [hfa]
      have hself : r.filter (fun x => decide (x ≠ a)) = r := by
        refine List.filter_eq_self.mpr ?_
        intro b hb
        simp only [decide_eq_true_eq]
        intro hba
        exact ha (hba ▸ hb)
      rw [hself]
      simp
    · have hfa : (decide (a ≠ n)) = true := by simp [h]
      rw [hfa]
      rcases List.mem_cons.mp hn with rfl | hn2
      · exact absurd rfl h
      · have hlen := ih hr hn2
        have hpos : 1 ≤ r.length := List.length_pos.mpr (List.ne_nil_of_mem hn2)
        simp only [if_true, List.length_cons, hlen]
        omega

theorem mem_of_subset_of_length_le (l₁ l₂ : List NodeId) (hsub : l₁ ⊆ l₂)
    (h₁ : l₁.Nodup) (hlen : l₂.length ≤ l₁.length) : ∀ x ∈ l₂, x ∈ l₁ := by
  have hperm := (h₁.subperm hsub).perm_of_length_le hlen
  intro x hx
  exact hperm.mem_iff.mpr hx

theorem trans_gen_target_mem {r : NodeId → NodeId → Prop} {a b : NodeId}
    (h : Relation.TransGen r a b) : ∃ x, r x b := by
  induction h with
  | single h => exact ⟨_, h⟩
  | tail _ h _ => exact ⟨_, h⟩

theorem kahn_no_cycle (g : Digraph) :
    ∀ (fuel : Nat) (r : List NodeId), r.Nodup →
      (kahnAux g fuel r).length = r.length →
      ∀ a ∈ r, ¬ Relation.TransGen
        (fun u v => (u, v) ∈ g.edges ∧ u ∈ r ∧ v ∈ r) a a := by
  intro fuel
  induction fuel with
  | zero =>
    intro r _ hlen a ha _
    have hr0 : r.length = 0 := hlen.symm
    rw [List.eq_nil_of_length_eq_zero hr0] at ha
    simp at ha
  | succ fuel ih =>
    intro r hnd hlen a ha hcyc
    rw [kahnAux] at hlen
    rcases hfind : r.find?
        (fun n => !(g.edges.any (fun e => e.2 == n && decide (e.1 ∈ r)))) with - | n
    · rw [hfind] at hlen
      have hr0 : r.length = 0 := hlen.symm
      rw [List.eq_nil_of_length_eq_zero hr0] at ha
      simp at ha
    · rw [hfind] at hlen
      have hn_mem : n ∈ r := List.mem_of_find?_eq_some hfind
      have hn_pred := List.find?_some hfind
      have hno_into_n : ∀ u, ¬ ((u, n) ∈ g.edges ∧ u ∈ r) := by
        intro u ⟨hu_edge, hu_mem⟩
        rw [Bool.not_eq_eq_eq_not, Bool.not_true, List.any_eq_false] at hn_pred
        have := hn_pred (u, n) hu_edge
        simp [hu_mem] at this
      have htarget_ne : ∀ x y, Relation.TransGen
          (fun u v => (u, v) ∈ g.edges ∧ u ∈ r ∧ v ∈ r) x y → y ≠ n := by
        intro x y hxy
        obtain ⟨z, hz, hzr, -⟩ := trans_gen_target_mem hxy
        intro heq
        exact hno_into_n z ⟨heq ▸ hz, hzr⟩
      have ha_ne : a ≠ n := htarget_ne a a hcyc
      have htransfer : ∀ x y, Relation.TransGen
            (fun u v => (u, v) ∈ g.edges ∧ u ∈ r ∧ v ∈ r) x y → x ≠ n →
          Relation.TransGen
            (fun u v => (u, v) ∈ g.edges ∧
              u ∈ r.filter (fun z => decide (z ≠ n)) ∧
              v ∈ r.filter (fun z => decide (z ≠ n))) x y := by
        intro x y hxy
        induction hxy with
        | @single b h =>
          intro hx_ne
          have hy_ne : b ≠ n := by
            intro heq
            exact hno_into_n x ⟨heq ▸ h.1, h.2.1⟩
          exact Relation.TransGen.single
            ⟨h.1, List.mem_filter.mpr ⟨h.2.1, by simpa using hx_ne⟩,
              List.mem_filter.mpr ⟨h.2.2, by simpa using hy_ne⟩⟩
        | @tail b c hxb h ihx =>
          intro hx_ne
          have hb_ne : b ≠ n := htarget_ne _ _ hxb
          have hy_ne : c ≠ n := by
            intro heq
            exact hno_into_n b ⟨heq ▸ h.1, h.2.1⟩
          exact Relation.TransGen.tail (ihx hx_ne)
            ⟨h.1, List.mem_filter.mpr ⟨h.2.1, by simpa using hb_ne⟩,
              List.mem_filter.mpr ⟨h.2.2, by simpa using hy_ne⟩⟩
      have hlen_rest : (kahnAux g fuel (r.filter (fun x => decide (x ≠ n)))).length =
          (r.filter (fun x => decide (x ≠ n))).length := by
        have h1 : (kahnAux g fuel (r.filter (fun x => decide (x ≠ n)))).length =
            r.length - 1 := by
          have : (n :: kahnAux g fuel (r.filter (fun x => decide (x ≠ n)))).length =
              r.length := hlen
          simp only [List.length_cons] at this
          omega
        rw [h1, length_filter_ne r n hnd hn_mem]
      have hcyc2 := htransfer a a hcyc ha_ne
      exact ih (r.filter (fun x => decide (x ≠ n))) (hnd.filter _) hlen_rest a
        (List.mem_filter.mpr ⟨ha, by simpa using ha_ne⟩) hcyc2

theorem no_cycle_of_is_dag (g : Digraph) (hwf : WFGraph g)
    (hd : is_directed_acyclic_graph g = true) :
    ∀ a, ¬ Relation.TransGen (edgeRel g) a a := by
  intro a hcyc
  have hlen : (kahnAux g g.nodes.length g.nodeIds).length = g.nodeIds.length := by
    have := of_decide_eq_true (by simpa [is_directed_acyclic_graph,
      topological_sort] using hd)
    exact this
  have hmem : ∀ u v, edgeRel g u v → u ∈ g.nodeIds ∧ v ∈ g.nodeIds := by
    intro u v h
    exact hwf.2 (u, v) h
  have hcyc2 : Relation.TransGen
      (fun u v => (u, v) ∈ g.edges ∧ u ∈ g.nodeIds ∧ v ∈ g.nodeIds) a a := by
    refine Relation.TransGen.mono ?_ hcyc
    intro u v h
    exact ⟨h, (hmem u v h).1, (hmem u v h).2⟩
  have ha : a ∈ g.nodeIds := by
    obtain ⟨x, -, -, hmem2⟩ := trans_gen_target_mem hcyc2
    exact hmem2
  exact kahn_no_cycle g g.nodes.length g.nodeIds hwf.1 hlen a ha hcyc2

theorem nodeIds_map_update (l : List (NodeId × NodeData)) (n : NodeId)
    (f : NodeData → NodeData) :
    ((l.map (fun p => if p.1 == n then (p.1, f p.2) else p)).map (·.1)) = l.map (·.1) := by
  induction l with
  | nil => rfl
  | cons a l ih =>
    by_cases h : a.1 == n
    · simp only [List.map_cons, if_pos h]
      rw [ih]
    · simp only [List.map_cons, if_neg h]
      rw [ih]

theorem hasNode_iff_mem (g : Digraph) (n : NodeId) :
    g.hasNode n = true ↔ n ∈ g.nodeIds := by
  simp [Digraph.hasNode, Digraph.nodeIds, List.any_eq_true, List.mem_map]

theorem nodeIds_add_node (g : Digraph) (n : NodeId) (kind : String) (d : NodeDef) :
    (g.add_node n kind d).nodeIds =
      if g.hasNode n then g.nodeIds else g.nodeIds ++ [n] := by
  rw [Digraph.add_node]
  split
  · exact nodeIds_map_update g.nodes n
      (fun d0 => { d0 with kind := some kind, definition := some d })
  · simp [Digraph.nodeIds]

theorem edges_add_node (g : Digraph) (n : NodeId) (kind : String) (d : NodeDef) :
    (g.add_node n kind d).edges = g.edges := by
  rw [Digraph.add_node]
  split <;> rfl

theorem WF_add_node (g : Digraph) (n : NodeId) (kind : String) (d : NodeDef)
    (h : WFGraph g) : WFGraph (g.add_node n kind d) := by
  constructor
  · rw [nodeIds_add_node]
    split
    · exact h.1
    · rename_i hn
      have hnm : n ∉ g.nodeIds := fun hm => hn ((hasNode_iff_mem g n).mpr hm)
      simp [List.nodup_append, h.1, hnm]
  · intro e he
    rw [edges_add_node] at he
    obtain ⟨h1, h2⟩ := h.2 e he
    rw [nodeIds_add_node]
    split
    · exact ⟨h1, h2⟩
    · exact ⟨List.mem_append_left _ h1, List.mem_append_left _ h2⟩

theorem nodeIds_ensureNode (g : Digraph) (n : NodeId) :
    (g.ensureNode n).nodeIds =
      if g.hasNode n then g.nodeIds else g.nodeIds ++ [n] := by
  rw [Digraph.ensureNode]
  split
  · rfl
  · simp [Digraph.nodeIds]

theorem edges_ensureNode (g : Digraph) (n : NodeId) :
    (g.ensureNode n).edges = g.edges := by
  rw [Digraph.ensureNode]
  split <;> rfl

theorem mem_nodeIds_ensureNode_self (g : Digraph) (n : NodeId) :
    n ∈ (g.ensureNode n).nodeIds := by
  rw [nodeIds_ensureNode]
  split
  · rename_i h
    exact (hasNode_iff_mem g n).mp h
  · simp

theorem mem_nodeIds_ensureNode_mono (g : Digraph) (n x : NodeId)
    (h : x ∈ g.nodeIds) : x ∈ (g.ensureNode n).nodeIds := by
  rw [nodeIds_ensureNode]
  split
  · exact h
  · exact List.mem_append_left _ h

theorem WF_ensureNode (g : Digraph) (n : NodeId) (h : WFGraph g) :
    WFGraph (g.ensureNode n) := by
  constructor
  · rw [nodeIds_ensureNode]
    split
    · exact h.1
    · rename_i hn
      have hnm : n ∉ g.nodeIds := fun hm => hn ((hasNode_iff_mem g n).mpr hm)
      simp [List.nodup_append, h.1, hnm]
  · intro e he
    rw [edges_ensureNode] at he
    obtain ⟨h1, h2⟩ := h.2 e he
    exact ⟨mem_nodeIds_ensureNode_mono g n _ h1, mem_nodeIds_ensureNode_mono g n _ h2⟩

theorem WF_add_edge (g : Digraph) (u v : NodeId) (h : WFGraph g) :
    WFGraph (g.add_edge u v) := by
  rw [Digraph.add_edge]
  have hwf2 : WFGraph ((g.ensureNode u).ensureNode v) :=
    WF_ensureNode _ v (WF_ensureNode g u h)
  have hu : u ∈ ((g.ensureNode u).ensureNode v).nodeIds :=
    mem_nodeIds_ensureNode_mono _ v u (mem_nodeIds_ensureNode_self g u)
  have hv : v ∈ ((g.ensureNode u).ensureNode v).nodeIds :=
    mem_nodeIds_ensureNode_self _ v
  split
  · exact hwf2
  · constructor
    · exact hwf2.1
    · intro e he
      rcases List.mem_append.mp he with he | he
      · exact hwf2.2 e he
      · rcases List.mem_singleton.mp he with rfl
        exact ⟨hu, hv⟩

theorem nodeIds_set_flow_control (g : Digraph) (n : NodeId) :
    (g.set_flow_control n).nodeIds = g.nodeIds :=
  nodeIds_map_update g.nodes n (fun d0 => { d0 with flow_control := true })

theorem edges_set_flow_control (g : Digraph) (n : NodeId) :
    (g.set_flow_control n).edges = g.edges := rfl

theorem WF_set_flow_control (g : Digraph) (n : NodeId) (h : WFGraph g) :
    WFGraph (g.set_flow_control n) := by
  constructor
  · rw [nodeIds_set_flow_control]
    exact h.1
  · intro e he
    rw [edges_set_flow_control] at he
    rw [nodeIds_set_flow_control]
    exact h.2 e he

theorem WF_establish_flow_control_edge (s : NodeId) (d : SelectorDefinition)
    (g g' : Digraph) (hok : establish_flow_control_edge s d g = .ok g')
    (h : WFGraph g) : WFGraph g' := by
  rw [establish_flow_control_edge] at hok
  split at hok
  · simp at hok
  · injection hok with hok
    subst hok
    exact WF_set_flow_control _ s (WF_add_edge g s _ h)

theorem WF_add_edge_for_step (g : Digraph) (s : NodeId) (d : SelectorDefinition)
    (g' : Digraph) (hok : add_edge_for_step g s d = .ok g') (h : WFGraph g) :
    WFGraph g' := by
  rw [add_edge_for_step] at hok
  split at hok
  · simp at hok
  · split at hok
    · exact WF_establish_flow_control_edge s d g g' hok h
    · split at hok
      · simp at hok
      · injection hok with hok
        subst hok
        exact WF_add_edge g _ s h

theorem WF_add_edges_for_step (s : NodeId) :
    ∀ (l : List SelectorDefinition) (g g' : Digraph), WFGraph g →
      add_edges_for_step g s l = .ok g' → WFGraph g' := by
  intro l
  induction l with
  | nil =>
    intro g g' h hok
    injection hok with hok
    subst hok
    exact h
  | cons d rest ih =>
    intro g g' h hok
    rw [add_edges_for_step] at hok
    split at hok
    · simp at hok
    · rename_i g2 heq
      exact ih g2 g' (WF_add_edge_for_step g s d g2 heq h) hok

theorem WF_add_steps_edges :
    ∀ (l : List StepManifest) (g g' : Digraph), WFGraph g →
      add_steps_edges g l = .ok g' → WFGraph g' := by
  intro l
  induction l with
  | nil =>
    intro g g' h hok
    injection hok with hok
    subst hok
    exact h
  | cons step rest ih =>
    intro g g' h hok
    rw [add_steps_edges] at hok
    split at hok
    · simp at hok
    · rename_i g2 heq
      exact ih g2 g' (WF_add_edges_for_step _ _ g g2 h heq) hok

theorem WF_add_edges_for_outputs :
    ∀ (l : List JsonField) (g g' : Digraph), WFGraph g →
      add_edges_for_outputs g l = .ok g' → WFGraph g' := by
  intro l
  induction l with
  | nil =>
    intro g g' h hok
    injection hok with hok
    subst hok
    exact h
  | cons output rest ih =>
    intro g g' h hok
    rw [add_edges_for_outputs] at hok
    split at hok
    · simp at hok
    · exact ih _ g' (WF_add_edge g _ _ h) hok

theorem WF_foldl_add_node {α : Type} (mkId : α → NodeId) (K : String)
    (mkDef : α → NodeDef) :
    ∀ (l : List α) (g : Digraph), WFGraph g →
      WFGraph (l.foldl (fun g a => g.add_node (mkId a) K (mkDef a)) g) := by
  intro l
  induction l with
  | nil => intro g h; exact h
  | cons a rest ih =>
    intro g h
    exact ih _ (WF_add_node g (mkId a) K (mkDef a) h)

theorem WF_empty : WFGraph Digraph.empty := by
  constructor
  · simp [Digraph.empty, Digraph.nodeIds]
  · intro e he
    simp [Digraph.empty] at he

theorem WF_construct_graph (wf : ParsedWorkflowDefinition) (g : Digraph)
    (hok : construct_graph wf = .ok g) : WFGraph g := by
  rw [construct_graph] at hok
  have h0 : WFGraph (add_output_nodes_for_graph wf.outputs
      (add_steps_nodes_for_graph wf.steps
        (add_input_nodes_for_graph wf.inputs Digraph.empty))) := by
    refine WF_foldl_add_node _ _ _ _ _ ?_
    refine WF_foldl_add_node _ _ _ _ _ ?_
    exact WF_foldl_add_node _ _ _ _ _ WF_empty
  split at hok
  · simp at hok
  · rename_i g2 heq
    exact WF_add_edges_for_outputs _ g2 g (WF_add_steps_edges _ _ g2 h0 heq) hok

/-- C5 counterexample.  There is no dedicated cycle-error class: a cyclic
workflow and a workflow with an impermissible flow-control reference fail
with the *same* error, `ExecutionGraphStructureError`, so the error kind
raised on a cycle is not distinct from the one raised for an
impermissible flow-control reference. -/
theorem cycle_error_kind_not_distinct_cex :
    prepare_execution_graph scenario_cycle = .error .executionGraphStructureError ∧
    prepare_execution_graph scenario_flow_misuse = .error .executionGraphStructureError ∧
    prepare_execution_graph scenario_cycle = prepare_execution_graph scenario_flow_misuse :=
  ⟨rfl, rfl, rfl⟩

/-- C5 amended.  For every workflow definition whose constructed
execution graph contains a cycle, compilation fails with
`ExecutionGraphStructureError` — the same error class as raised for an
impermissible flow-control reference (the two cases are distinguished
only by message, not by kind). -/
theorem cycle_raises_structure_error (wf : ParsedWorkflowDefinition) (g : Digraph)
    (hok : construct_graph wf = .ok g)
    (hcyc : ∃ a, Relation.TransGen (edgeRel g) a a) :
    prepare_execution_graph wf = .error .executionGraphStructureError := by
  obtain ⟨a, hcyc⟩ := hcyc
  have hwf := WF_construct_graph wf g hok
  have hd : is_directed_acyclic_graph g = false := by
    cases hdag : is_directed_acyclic_graph g
    · rfl
    · exact absurd hcyc (no_cycle_of_is_dag g hwf hdag a)
  rw [prepare_execution_graph, hok]
  simp [hd]

/-- C5 witness: scenario 3 (two steps referencing each other) is a
concrete cyclic workflow, and compilation fails with
`ExecutionGraphStructureError`. -/
theorem cycle_raises_structure_error_witness :
    prepare_execution_graph scenario_cycle = .error .executionGraphStructureError :=
  cycle_raises_structure_error scenario_cycle
    (exceptGraph (construct_graph scenario_cycle)) (by rfl)
    ⟨NodeId.step "a",
      Relation.TransGen.tail
        (Relation.TransGen.single
          (show edgeRel (exceptGraph (construct_graph scenario_cycle))
            (NodeId.step "a") (NodeId.step "b") by decide))
        (show edgeRel (exceptGraph (construct_graph scenario_cycle))
          (NodeId.step "b") (NodeId.step "a") by decide)⟩

/-- C2 counterexample.  For the property `p` with allowed references
`\x7binput: other\x7d` and `\x7bstep_output: number\x7d` and the input
selector `$inputs.x` (input of kind `number`), the source-level edge
creation succeeds — the kinds of *all* allowed references are used — even
though the spec's filtered expected-kind set (`\x7bother\x7d`, from the
`input`-element reference only) is disjoint from the actual kinds and
would have to fail the compatibility test. -/
theorem expected_kinds_not_filtered_cex :
    add_edge_for_step mixed_refs_graph (.step "s") mixed_refs_definition =
      .ok (mixed_refs_graph.add_edge (.input "x") (.step "s")) ∧
    validate_reference_types (expected_kinds_per_spec mixed_refs_definition)
        (actual_input_kind_of mixed_refs_graph mixed_refs_definition) =
      .error .typeMismatchError ∧
    expected_input_kind_of mixed_refs_definition = [kOther, kNumber] ∧
    expected_kinds_per_spec mixed_refs_definition = [kOther] :=
  ⟨rfl, rfl, rfl, rfl⟩

/-- C2 amended.  For every data edge created for a step's selector
property, the expected kinds used in the compatibility test are the
union of the kinds of *all* allowed references of the property,
regardless of their `selected_element`: with both endpoints present and
a non-flow-control selector, edge creation succeeds exactly when that
unfiltered union is compatible with the actual kinds and otherwise fails
with the type-mismatch error. -/
theorem add_edge_for_step_uses_all_allowed_references (g : Digraph) (s : NodeId)
    (d : SelectorDefinition)
    (hsel : is_step_selector d.selector = false)
    (h1 : g.hasNode s = true)
    (h2 : g.hasNode (get_step_selector_from_its_output d.selector) = true) :
    (kinds_compatible (expected_input_kind_of d) (actual_input_kind_of g d) = true →
      add_edge_for_step g s d =
        .ok (g.add_edge (get_step_selector_from_its_output d.selector) s)) ∧
    (kinds_compatible (expected_input_kind_of d) (actual_input_kind_of g d) = false →
      add_edge_for_step g s d = .error .typeMismatchError) := by
  constructor
  · intro hc
    rw [add_edge_for_step, verify_edge_is_created_between_existing_nodes]
    simp [h1, h2, hsel, validate_reference_types, hc]
  · intro hc
    rw [add_edge_for_step, verify_edge_is_created_between_existing_nodes]
    simp [h1, h2, hsel, validate_reference_types, hc]

/-- C2 witness: the amended theorem applied to the concrete mixed-kind
property, where the unfiltered union is compatible and the edge is
added. -/
theorem add_edge_for_step_uses_all_allowed_references_witness :
    is_step_selector mixed_refs_definition.selector = false ∧
    mixed_refs_graph.hasNode (NodeId.step "s") = true ∧
    add_edge_for_step mixed_refs_graph (NodeId.step "s") mixed_refs_definition =
      .ok (mixed_refs_graph.add_edge (NodeId.input "x") (NodeId.step "s")) :=
  ⟨rfl, rfl,
    (add_edge_for_step_uses_all_allowed_references mixed_refs_graph (NodeId.step "s")
      mixed_refs_definition rfl rfl rfl).1 rfl⟩

/-- C4 counterexample.  The step-output selector `$steps.n.bad`, where
step `n` exists but declares no output `bad`, does *not* raise
`InvalidReferenceTargetError`: both edge endpoints exist, the actual
kind list is empty, and compilation fails with the type-mismatch error
instead. -/
theorem missing_property_not_invalid_reference_cex :
    prepare_execution_graph scenario_missing_property = .error .typeMismatchError ∧
    ∀ sel : NodeId, prepare_execution_graph scenario_missing_property ≠
      .error (.invalidReferenceTargetError sel) := by
  refine ⟨rfl, ?_⟩
  intro sel h
  rw [show prepare_execution_graph scenario_missing_property =
    .error .typeMismatchError from rfl] at h
  exact absurd h (by simp)

/-- C4 amended.  A selector whose *node* target (input or step) does not
exist fails with `InvalidReferenceTargetError` naming the missing node —
the existence check passes exactly when both endpoints are nodes, and
the error names the start node exactly when it is missing — but a
step-output selector naming an existing step with a nonexistent output
property yields an empty actual-kind list and fails the reference-type
check (`TypeMismatchError`), not `InvalidReferenceTargetError`. -/
theorem invalid_reference_only_for_missing_nodes :
    (∀ (g : Digraph) (a b : NodeId),
      (verify_edge_is_created_between_existing_nodes g a b = .ok () ↔
        (g.hasNode a = true ∧ g.hasNode b = true)) ∧
      (verify_edge_is_created_between_existing_nodes g a b =
          .error (.invalidReferenceTargetError a) ↔ g.hasNode a = false)) ∧
    prepare_execution_graph scenario_ghost_step =
      .error (.invalidReferenceTargetError (.step "ghost")) ∧
    prepare_execution_graph scenario_missing_property = .error .typeMismatchError := by
  refine ⟨?_, rfl, rfl⟩
  intro g a b
  rw [verify_edge_is_created_between_existing_nodes]
  by_cases ha : g.hasNode a
  · by_cases hb : g.hasNode b
    · constructor
      · simp [ha, hb]
      · constructor
        · intro h
          simp [ha, hb] at h
        · intro h
          rw [ha] at h
          simp at h
    · constructor
      · simp [ha, hb]
      · constructor
        · intro h
          simp only [ha, hb] at h
          simp only [not_true_eq_false, if_false, not_false_eq_true, if_true] at h
          injection h with h
          injection h with h
          rw [← h] at ha
          rw [ha] at hb
          simp at hb
        · intro h
          rw [ha] at h
          simp at h
  · constructor
    · simp [ha]
    · constructor
      · intro _
        simp [Bool.not_eq_true] at ha
        exact ha
      · intro _
        simp [ha]

theorem lookupData_set_flow_control (g : Digraph) (s : NodeId) :
    (g.set_flow_control s).lookupData s =
      (g.lookupData s).map (fun d => { d with flow_control := true }) := by
  rcases g with ⟨nodes, edges⟩
  simp only [Digraph.set_flow_control, Digraph.lookupData]
  induction nodes with
  | nil => rfl
  | cons a l ih =>
    by_cases h : (a.1 == s) = true
    · have hf : (a.1 == s) = true := h
      rw [List.map_cons, if_pos h, List.find?_cons, List.find?_cons]
      simp [hf]
    · have hf : (a.1 == s) = false := by simpa using h
      rw [List.map_cons, if_neg h, List.find?_cons, List.find?_cons]
      simpa [hf] using ih

theorem lookupData_isSome_of_mem (g : Digraph) (s : NodeId) (h : s ∈ g.nodeIds) :
    ∃ d, g.lookupData s = some d := by
  rcases List.mem_map.mp h with ⟨p, hp, hps⟩
  subst hps
  rw [Digraph.lookupData]
  rcases hf : g.nodes.find? (fun q => q.1 == p.1) with - | q
  · have := List.find?_eq_none.mp hf p hp
    simp at this
  · exact ⟨q.2, by rw [hf]; rfl⟩

theorem is_flow_control_after_set (g : Digraph) (s : NodeId) (h : s ∈ g.nodeIds) :
    is_flow_control_step (g.set_flow_control s) s = true := by
  obtain ⟨d, hd⟩ := lookupData_isSome_of_mem g s h
  rw [is_flow_control_step, lookupData_set_flow_control, hd]
  rfl

theorem nodeIds_add_edge (g : Digraph) (u v : NodeId) :
    (g.add_edge u v).nodeIds = ((g.ensureNode u).ensureNode v).nodeIds := by
  rw [Digraph.add_edge]
  split <;> rfl

theorem mem_nodeIds_add_edge_left (g : Digraph) (u v : NodeId) :
    u ∈ (g.add_edge u v).nodeIds := by
  rw [nodeIds_add_edge]
  exact mem_nodeIds_ensureNode_mono _ v u (mem_nodeIds_ensureNode_self g u)

theorem allows_flow_control_of_element_map_eq (d d' : SelectorDefinition)
    (h : d'.allowed_references.map (·.selected_element) =
      d.allowed_references.map (·.selected_element)) :
    step_definition_allows_flow_control_references d' =
      step_definition_allows_flow_control_references d := by
  rw [step_definition_allows_flow_control_references,
    step_definition_allows_flow_control_references]
  rw [← List.countP_eq_length_filter, ← List.countP_eq_length_filter]
  have hc : ∀ l : List ReferenceDefinition,
      l.countP (fun definition => definition.selected_element == STEP_AS_SELECTED_ELEMENT) =
        (l.map (·.selected_element)).countP (fun e => e == STEP_AS_SELECTED_ELEMENT) := by
    intro l
    rw [List.countP_map]
    rfl
  rw [hc, hc, h]

/-- C6.  For a step property whose value is a pure step selector: when no
allowed reference has selected element `step`, edge creation raises
`ExecutionGraphStructureError`; otherwise the added edge goes from the
referring step `s` to the referenced step (reversed relative to data
edges), `s` is marked as a flow-control step, and no kind compatibility
is consulted — the outcome is unchanged under any change of the allowed
references' kinds that keeps their selected elements. -/
theorem flow_control_edge_behavior (g : Digraph) (s : NodeId) (d : SelectorDefinition)
    (n : String) (hsel : d.selector = Selector.step n)
    (h1 : g.hasNode s = true) (h2 : g.hasNode (NodeId.step n) = true) :
    (step_definition_allows_flow_control_references d = false →
      add_edge_for_step g s d = .error .executionGraphStructureError) ∧
    (step_definition_allows_flow_control_references d = true →
      add_edge_for_step g s d =
        .ok ((g.add_edge s (NodeId.step n)).set_flow_control s) ∧
      is_flow_control_step ((g.add_edge s (NodeId.step n)).set_flow_control s) s = true) ∧
    (∀ d' : SelectorDefinition, d'.selector = d.selector →
      d'.allowed_references.map (·.selected_element) =
        d.allowed_references.map (·.selected_element) →
      add_edge_for_step g s d' = add_edge_for_step g s d) := by
  refine ⟨?_, ?_, ?_⟩
  · intro hallow
    rw [add_edge_for_step, verify_edge_is_created_between_existing_nodes]
    simp [hsel, h1, h2, is_step_selector, get_step_selector_from_its_output,
      establish_flow_control_edge, hallow]
  · intro hallow
    constructor
    · rw [add_edge_for_step, verify_edge_is_created_between_existing_nodes]
      simp [hsel, h1, h2, is_step_selector, get_step_selector_from_its_output,
        establish_flow_control_edge, hallow]
    · refine is_flow_control_after_set _ s ?_
      exact mem_nodeIds_add_edge_left g s (NodeId.step n)
  · intro d' hsel' hmap
    have hallow := allows_flow_control_of_element_map_eq d d' hmap
    rw [add_edge_for_step, add_edge_for_step, establish_flow_control_edge,
      establish_flow_control_edge, hsel', hallow, hsel]
    simp [is_step_selector]

/-- C6 witness: the amended behavior at the concrete two-step graph —
the flow-control property of step `A` referencing step `B` adds the edge
`A → B` and marks `A`. -/
theorem flow_control_edge_behavior_witness :
    two_steps_base.hasNode (NodeId.step "A") = true ∧
    add_edge_for_step two_steps_base (NodeId.step "A")
        ⟨"step_if_true", [⟨STEP_AS_SELECTED_ELEMENT, []⟩], .step "B"⟩ =
      .ok ((two_steps_base.add_edge (NodeId.step "A") (NodeId.step "B")).set_flow_control
        (NodeId.step "A")) :=
  ⟨rfl,
    ((flow_control_edge_behavior two_steps_base (NodeId.step "A")
      ⟨"step_if_true", [⟨STEP_AS_SELECTED_ELEMENT, []⟩], .step "B"⟩ "B"
      rfl rfl rfl).2.1 rfl).1⟩

/-- C8 counterexample.  The flow-control discriminator is not on the
edge: the graph where `A → B` was added as a flow-control edge and the
graph where `A → B` was added as a data edge (step `B` consuming
`$steps.A.y`) have *identical* edge values — a bare node pair with no
marker — and differ only in the `FLOW_CONTROL_NODE_KEY` attribute of
node `A`. -/
theorem flow_control_marker_not_on_edge_cex :
    two_steps_flow_control_graph.edges = two_steps_data_graph.edges ∧
    two_steps_flow_control_graph.edges = [(NodeId.step "A", NodeId.step "B")] ∧
    is_flow_control_step two_steps_flow_control_graph (NodeId.step "A") = true ∧
    is_flow_control_step two_steps_data_graph (NodeId.step "A") = false :=
  ⟨rfl, rfl, rfl, rfl⟩

/-- C8 amended.  The flow-control discriminator lives on the source
*node*, not on the edge: `establish_flow_control_edge` adds a plain,
attribute-free edge from the flow-control step to its potential
successor and sets the `FLOW_CONTROL_NODE_KEY` attribute on the
flow-control step node; setting the marker does not change the edge
list. -/
theorem flow_control_marker_on_node (g : Digraph) (s : NodeId) (d : SelectorDefinition)
    (hallow : step_definition_allows_flow_control_references d = true) :
    establish_flow_control_edge s d g =
      .ok ((g.add_edge s (get_step_selector_from_its_output d.selector)).set_flow_control s) ∧
    ((g.add_edge s (get_step_selector_from_its_output d.selector)).set_flow_control s).edges =
      (g.add_edge s (get_step_selector_from_its_output d.selector)).edges ∧
    is_flow_control_step
      ((g.add_edge s (get_step_selector_from_its_output d.selector)).set_flow_control s)
      s = true := by
  refine ⟨?_, rfl, ?_⟩
  · rw [establish_flow_control_edge]
    simp [hallow]
  · exact is_flow_control_after_set _ s
      (mem_nodeIds_add_edge_left g s (get_step_selector_from_its_output d.selector))

/-- C8 witness: the amended behavior at the concrete two-step graph. -/
theorem flow_control_marker_on_node_witness :
    establish_flow_control_edge (NodeId.step "A")
        ⟨"step_if_true", [⟨STEP_AS_SELECTED_ELEMENT, []⟩], .step "B"⟩ two_steps_base =
      .ok ((two_steps_base.add_edge (NodeId.step "A") (NodeId.step "B")).set_flow_control
        (NodeId.step "A")) :=
  (flow_control_marker_on_node two_steps_base (NodeId.step "A")
    ⟨"step_if_true", [⟨STEP_AS_SELECTED_ELEMENT, []⟩], .step "B"⟩ rfl).1

theorem succLookup_nil (k : NodeId) : succLookup [] k = [] := rfl

theorem succLookup_cons (a : NodeId × List NodeId) (m : List (NodeId × List NodeId))
    (k : NodeId) :
    succLookup (a :: m) k = if a.1 == k then a.2 else succLookup m k := by
  rw [succLookup, List.find?_cons]
  cases h : (a.1 == k) with
  | true => simp [h]
  | false => simp [h, succLookup]

theorem mem_succLookup_succInsert (m : List (NodeId × List NodeId)) (k v k' x : NodeId) :
    x ∈ succLookup (succInsert m k v) k' ↔
      x ∈ succLookup m k' ∨ (k' = k ∧ x = v) := by
  induction m with
  | nil =>
    rw [succInsert, succLookup_cons, succLookup_nil]
    by_cases h : (k == k') = true
    · rw [if_pos h]
      have hkk : k = k' := by simpa using h
      subst hkk
      simp
    · rw [if_neg h]
      simp only [List.not_mem_nil, false_or, false_iff]
      rintro ⟨h1, -⟩
      exact absurd h1.symm (by simpa using h)
  | cons a rest ih =>
    rcases a with ⟨k0, vs⟩
    rw [succInsert]
    by_cases hk : (k0 == k) = true
    · rw [if_pos hk]
      have hk0 : k0 = k := by simpa using hk
      rw [succLookup_cons, succLookup_cons]
      by_cases hk' : (k0 == k') = true
      · have hk0' : k0 = k' := by simpa using hk'
        rw [if_pos hk', if_pos hk']
        by_cases hv : v ∈ vs
        · rw [if_pos hv]
          constructor
          · intro h
            exact Or.inl h
          · rintro (h | ⟨-, rfl⟩)
            · exact h
            · exact hv
        · rw [if_neg hv]
          rw [List.mem_append, List.mem_singleton]
          constructor
          · rintro (h | rfl)
            · exact Or.inl h
            · exact Or.inr ⟨hk0 ▸ hk0'.symm, rfl⟩
          · rintro (h | ⟨-, rfl⟩)
            · exact Or.inl h
            · exact Or.inr rfl
      · rw [if_neg hk', if_neg hk']
        constructor
        · intro h
          exact Or.inl h
        · rintro (h | ⟨h1, -⟩)
          · exact h
          · exact absurd (hk0.trans h1.symm) (by simpa using hk')
    · rw [if_neg hk]
      rw [succLookup_cons, succLookup_cons]
      by_cases hk' : (k0 == k') = true
      · have hk0' : k0 = k' := by simpa using hk'
        rw [if_pos hk', if_pos hk']
        constructor
        · intro h
          exact Or.inl h
        · rintro (h | ⟨h1, -⟩)
          · exact h
          · exact absurd (hk0'.trans h1) (by simpa using hk)
      · rw [if_neg hk', if_neg hk']
        exact ih

theorem nodup_succLookup_succInsert (m : List (NodeId × List NodeId)) (k v k0 : NodeId)
    (h : (succLookup m k0).Nodup) :
    (succLookup (succInsert m k v) k0).Nodup := by
  induction m with
  | nil =>
    rw [succInsert, succLookup_cons, succLookup_nil]
    by_cases hb : (k == k0) = true
    · rw [if_pos hb]
      simp
    · rw [if_neg hb]
      simp
  | cons a rest ih =>
    rcases a with ⟨k1, vs⟩
    rw [succInsert]
    by_cases hk : (k1 == k) = true
    · rw [if_pos hk, succLookup_cons]
      by_cases hk1 : (k1 == k0) = true
      · rw [if_pos hk1]
        have hvs : vs.Nodup := by
          rw [succLookup_cons, if_pos hk1] at h
          exact h
        by_cases hv : v ∈ vs
        · rw [if_pos hv]
          exact hvs
        · rw [if_neg hv]
          simp [List.nodup_append, hvs, hv]
      · rw [if_neg hk1]
        rw [succLookup_cons, if_neg hk1] at h
        exact h
    · rw [if_neg hk, succLookup_cons]
      by_cases hk1 : (k1 == k0) = true
      · rw [if_pos hk1]
        rw [succLookup_cons, if_pos hk1] at h
        exact h
      · rw [if_neg hk1]
        rw [succLookup_cons, if_neg hk1] at h
        exact ih h

theorem mem_steps_parents_fold (sn : List NodeId) (edges : List (NodeId × NodeId)) :
    ∀ (acc : List (NodeId × List NodeId)) (c x : NodeId),
      x ∈ succLookup (edges.foldl
        (fun acc e => if e.1 ∈ sn ∧ e.2 ∈ sn then succInsert acc e.2 e.1 else acc) acc) c ↔
        x ∈ succLookup acc c ∨ ((x, c) ∈ edges ∧ x ∈ sn ∧ c ∈ sn) := by
  induction edges with
  | nil => simp
  | cons e rest ih =>
    intro acc c x
    rw [List.foldl_cons]
    by_cases he : e.1 ∈ sn ∧ e.2 ∈ sn
    · rw [if_pos he, ih, mem_succLookup_succInsert]
      constructor
      · rintro ((h | ⟨hc, hx⟩) | ⟨hmem, hx, hc⟩)
        · exact Or.inl h
        · refine Or.inr ⟨?_, hx ▸ he.1, hc ▸ he.2⟩
          have : (x, c) = e := by
            rw [hx, hc]
          rw [this]
          exact List.mem_cons_self _ _
        · exact Or.inr ⟨List.mem_cons_of_mem _ hmem, hx, hc⟩
      · rintro (h | ⟨hmem, hx, hc⟩)
        · exact Or.inl (Or.inl h)
        · rcases List.mem_cons.mp hmem with heq | hmem
          · refine Or.inl (Or.inr ?_)
            have h1 : x = e.1 := congrArg Prod.fst heq
            have h2 : c = e.2 := congrArg Prod.snd heq
            exact ⟨h2, h1⟩
          · exact Or.inr ⟨hmem, hx, hc⟩
    · rw [if_neg he, ih]
      constructor
      · rintro (h | ⟨hmem, hx, hc⟩)
        · exact Or.inl h
        · exact Or.inr ⟨List.mem_cons_of_mem _ hmem, hx, hc⟩
      · rintro (h | ⟨hmem, hx, hc⟩)
        · exact Or.inl h
        · rcases List.mem_cons.mp hmem with heq | hmem
          · refine absurd ?_ he
            have h1 : x = e.1 := congrArg Prod.fst heq
            have h2 : c = e.2 := congrArg Prod.snd heq
            exact ⟨h1 ▸ hx, h2 ▸ hc⟩
          · exact Or.inr ⟨hmem, hx, hc⟩

theorem nodup_steps_parents_fold (sn : List NodeId) (edges : List (NodeId × NodeId)) :
    ∀ (acc : List (NodeId × List NodeId)) (c : NodeId), (succLookup acc c).Nodup →
      (succLookup (edges.foldl
        (fun acc e => if e.1 ∈ sn ∧ e.2 ∈ sn then succInsert acc e.2 e.1 else acc) acc) c).Nodup := by
  induction edges with
  | nil => intro acc c h; exact h
  | cons e rest ih =>
    intro acc c h
    rw [List.foldl_cons]
    by_cases he : e.1 ∈ sn ∧ e.2 ∈ sn
    · rw [if_pos he]
      exact ih _ c (nodup_succLookup_succInsert acc e.2 e.1 c h)
    · rw [if_neg he]
      exact ih _ c h

theorem mem_entry_of_succLookup_ne_nil (m : List (NodeId × List NodeId)) (c : NodeId)
    (h : succLookup m c ≠ []) : (c, succLookup m c) ∈ m := by
  rw [succLookup] at h ⊢
  rcases hf : m.find? (fun p => p.1 == c) with - | p
  · rw [hf] at h
    simp at h
  · rw [hf]
    have hp := List.mem_of_find?_eq_some hf
    have hc : p.1 = c := by simpa using List.find?_some hf
    have hcp : ((c, p.2) : NodeId × List NodeId) = p := by
      rw [← hc]
    show ((c, p.2) : NodeId × List NodeId) ∈ m
    rw [hcp]
    exact hp

theorem one_lt_length_of_two_mem {α : Type} (l : List α) (a b : α)
    (ha : a ∈ l) (hb : b ∈ l) (h : a ≠ b) : 1 < l.length := by
  match l with
  | [] => simp at ha
  | [x] =>
    rw [List.mem_singleton] at ha hb
    exact absurd (ha.trans hb.symm) h
  | x :: y :: rest => simp [List.length]

theorem detect_eq (g : Digraph) :
    detect_steps_with_more_than_one_parent_step g =
      ((g.edges.foldl
        (fun acc e => if e.1 ∈ get_nodes_of_specific_kind g STEP_NODE_KIND ∧
            e.2 ∈ get_nodes_of_specific_kind g STEP_NODE_KIND then
          succInsert acc e.2 e.1 else acc) []).filter
        (fun p => p.2.length > 1)).map (·.1) := rfl

/-- C9.  Flow-control edges count toward the two-or-more step-parents
threshold of branch isolation: the graph stores flow-control edges as
bare node pairs, so any step with two distinct step parents — however
each edge arose — is in the set analysed by the branch-isolation pass. -/
theorem multi_parent_counts_flow_control_edges (g : Digraph) (a b m : NodeId)
    (ha : a ∈ get_nodes_of_specific_kind g STEP_NODE_KIND)
    (hb : b ∈ get_nodes_of_specific_kind g STEP_NODE_KIND)
    (hm : m ∈ get_nodes_of_specific_kind g STEP_NODE_KIND)
    (hne : a ≠ b)
    (hea : (a, m) ∈ g.edges) (heb : (b, m) ∈ g.edges) :
    m ∈ detect_steps_with_more_than_one_parent_step g := by
  rw [detect_eq]
  have hax : a ∈ succLookup (g.edges.foldl
      (fun acc e => if e.1 ∈ get_nodes_of_specific_kind g STEP_NODE_KIND ∧
          e.2 ∈ get_nodes_of_specific_kind g STEP_NODE_KIND then
        succInsert acc e.2 e.1 else acc) []) m :=
    (mem_steps_parents_fold _ g.edges [] m a).mpr (Or.inr ⟨hea, ha, hm⟩)
  have hbx : b ∈ succLookup (g.edges.foldl
      (fun acc e => if e.1 ∈ get_nodes_of_specific_kind g STEP_NODE_KIND ∧
          e.2 ∈ get_nodes_of_specific_kind g STEP_NODE_KIND then
        succInsert acc e.2 e.1 else acc) []) m :=
    (mem_steps_parents_fold _ g.edges [] m b).mpr (Or.inr ⟨heb, hb, hm⟩)
  have hlen := one_lt_length_of_two_mem _ a b hax hbx hne
  have hne_nil : succLookup (g.edges.foldl
      (fun acc e => if e.1 ∈ get_nodes_of_specific_kind g STEP_NODE_KIND ∧
          e.2 ∈ get_nodes_of_specific_kind g STEP_NODE_KIND then
        succInsert acc e.2 e.1 else acc) []) m ≠ [] := by
    intro h0
    rw [h0] at hlen
    simp at hlen
  have hmem := mem_entry_of_succLookup_ne_nil _ m hne_nil
  exact List.mem_map.mpr
    ⟨(m, succLookup (g.edges.foldl
        (fun acc e => if e.1 ∈ get_nodes_of_specific_kind g STEP_NODE_KIND ∧
            e.2 ∈ get_nodes_of_specific_kind g STEP_NODE_KIND then
          succInsert acc e.2 e.1 else acc) []) m),
      List.mem_filter.mpr ⟨hmem, by simpa using hlen⟩, rfl⟩

/-- C9 witness: in the concrete graph where step `M` has a flow-control
edge from `A` and a data edge from `B`, the multi-parent detector
includes `M`. -/
theorem multi_parent_counts_flow_control_edges_witness :
    NodeId.step "M" ∈ detect_steps_with_more_than_one_parent_step mixed_parents_graph :=
  multi_parent_counts_flow_control_edges mixed_parents_graph
    (NodeId.step "A") (NodeId.step "B") (NodeId.step "M")
    (by decide) (by decide) (by decide) (by decide) (by decide) (by decide)

theorem find?_update_map_general (l : List (NodeId × NodeData)) (n : NodeId)
    (k : String) (d : NodeDef) :
    ((l.map (fun p => if p.1 == n then
        (p.1, { p.2 with kind := some k, definition := some d }) else p)).find?
        (fun p => p.1 == n)).map (fun p => p.2) =
      ((l.find? (fun p => p.1 == n)).map (fun p => p.2)).map
        (fun d0 => { d0 with kind := some k, definition := some d }) := by
  induction l with
  | nil => rfl
  | cons a l ih =>
    by_cases h : (a.1 == n) = true
    · rw [List.map_cons, if_pos h, List.find?_cons, List.find?_cons]
      simp [h]
    · have hf : (a.1 == n) = false := by simpa using h
      rw [List.map_cons, if_neg h, List.find?_cons, List.find?_cons]
      simpa [hf] using ih

theorem find?_update_map_other (l : List (NodeId × NodeData)) (n id : NodeId)
    (k : String) (d : NodeDef) (hne : id ≠ n) :
    (l.map (fun p => if p.1 == n then
        (p.1, { p.2 with kind := some k, definition := some d }) else p)).find?
        (fun p => p.1 == id) =
      l.find? (fun p => p.1 == id) := by
  induction l with
  | nil => rfl
  | cons a l ih =>
    by_cases h : (a.1 == n) = true
    · have ha : a.1 = n := by simpa using h
      have hid : (a.1 == id) = false := by
        rw [ha]
        simpa using (Ne.symm hne)
      rw [List.map_cons, if_pos h, List.find?_cons, List.find?_cons]
      simpa [hid] using ih
    · by_cases h2 : (a.1 == id) = true
      · rw [List.map_cons, if_neg h, List.find?_cons, List.find?_cons]
        simp [h2]
      · have hf2 : (a.1 == id) = false := by simpa using h2
        rw [List.map_cons, if_neg h, List.find?_cons, List.find?_cons]
        simpa [hf2] using ih

theorem lookupData_add_node_self (g : Digraph) (n : NodeId) (k : String) (d : NodeDef) :
    (g.add_node n k d).lookupData n =
      some ⟨some k, some d, ((g.lookupData n).map (·.flow_control)).getD false⟩ := by
  rw [Digraph.add_node]
  split
  · rename_i h
    simp only [Digraph.lookupData]
    rw [find?_update_map_general g.nodes n k d]
    rcases hf : g.nodes.find? (fun p => p.1 == n) with - | p
    · exfalso
      rw [List.find?_eq_none] at hf
      obtain ⟨x, hx, hpx⟩ := List.any_eq_true.mp h
      exact hf x hx hpx
    · rw [hf]
      rfl
  · rename_i h
    have hnone : g.nodes.find? (fun p => p.1 == n) = none := by
      rw [List.find?_eq_none]
      intro x hx hpx
      exact h (List.any_eq_true.mpr ⟨x, hx, hpx⟩)
    simp only [Digraph.lookupData]
    rw [List.find?_append, hnone]
    simp [List.find?_cons]

theorem lookupData_add_node_other (g : Digraph) (n : NodeId) (k : String) (d : NodeDef)
    (id : NodeId) (hne : id ≠ n) :
    (g.add_node n k d).lookupData id = g.lookupData id := by
  rw [Digraph.add_node]
  split
  · simp only [Digraph.lookupData]
    rw [find?_update_map_other g.nodes n id k d hne]
  · simp only [Digraph.lookupData]
    rw [List.find?_append]
    have hsingle : (([(n, { kind := some k, definition := some d })] :
        List (NodeId × NodeData)).find? (fun p => p.1 == id)) = none := by
      rw [List.find?_eq_none]
      intro x hx hpx
      rcases List.mem_singleton.mp hx with rfl
      have hnid : n = id := by simpa using hpx
      exact hne hnid.symm
    rw [hsingle]
    rcases hf : g.nodes.find? (fun p => p.1 == id) with - | p <;> simp [hf]

theorem mem_nodeIds_of_lookupData_some (g : Digraph) (id : NodeId) (d : NodeData)
    (h : g.lookupData id = some d) : id ∈ g.nodeIds := by
  rw [Digraph.lookupData] at h
  rcases hf : g.nodes.find? (fun p => p.1 == id) with - | p
  · rw [hf] at h
    simp at h
  · have hm := List.mem_of_find?_eq_some hf
    have hp1 : p.1 = id := by simpa using List.find?_some hf
    exact hp1 ▸ List.mem_map.mpr ⟨p, hm, rfl⟩

theorem foldl_add_node_lookup_none {α : Type} (mkId : α → NodeId) (K : String)
    (mkDef : α → NodeDef) :
    ∀ (l : List α) (g : Digraph) (id : NodeId),
      l.filter (fun a => mkId a == id) = [] →
      (l.foldl (fun g a => g.add_node (mkId a) K (mkDef a)) g).lookupData id =
        g.lookupData id := by
  intro l
  induction l with
  | nil => intro g id _; rfl
  | cons a l ih =>
    intro g id hfil
    rw [List.filter_cons] at hfil
    by_cases h : (mkId a == id) = true
    · rw [if_pos h] at hfil
      simp at hfil
    · rw [if_neg h] at hfil
      have hne : mkId a ≠ id := fun he => h (by simpa using he)
      rw [List.foldl_cons, ih _ id hfil,
        lookupData_add_node_other g (mkId a) K (mkDef a) id (Ne.symm hne)]

theorem foldl_add_node_lookup_last {α : Type} (mkId : α → NodeId) (K : String)
    (mkDef : α → NodeDef) :
    ∀ (l : List α) (g : Digraph) (id : NodeId) (a0 : α),
      (l.filter (fun a => mkId a == id)).getLast? = some a0 →
      (l.foldl (fun g a => g.add_node (mkId a) K (mkDef a)) g).lookupData id =
        some ⟨some K, some (mkDef a0),
          ((g.lookupData id).map (·.flow_control)).getD false⟩ := by
  intro l
  induction l with
  | nil =>
    intro g id a0 h
    simp at h
  | cons a l ih =>
    intro g id a0 h
    rw [List.filter_cons] at h
    by_cases hmk : (mkId a == id) = true
    · rw [if_pos hmk] at h
      have hid : mkId a = id := by simpa using hmk
      rcases hfl : l.filter (fun a => mkId a == id) with - | ⟨b, bs⟩
      · rw [hfl] at h
        have ha0 : a0 = a := by
          simp at h
          exact h.symm
        subst ha0
        rw [List.foldl_cons, foldl_add_node_lookup_none mkId K mkDef l _ id hfl]
        subst hid
        rw [lookupData_add_node_self]
      · rw [hfl, List.getLast?_cons_cons] at h
        rw [List.foldl_cons, ih _ id a0 (hfl ▸ h)]
        subst hid
        rw [lookupData_add_node_self]
        rfl
    · rw [if_neg hmk] at h
      have hne : mkId a ≠ id := fun he => hmk (by simpa using he)
      rw [List.foldl_cons, ih _ id a0 h,
        lookupData_add_node_other g (mkId a) K (mkDef a) id (Ne.symm hne)]

/-- C10.  Graph construction does not reject duplicate names: node
addition is total, and adding two inputs, steps or outputs with the same
name yields a single node under that id whose attached definition is the
*last* occurrence in definition order (re-adding a node overwrites its
`kind` and `definition` attributes). -/
theorem duplicate_names_last_occurrence :
    (∀ (inputs : List InputSpec) (name : String) (a0 : InputSpec),
      (inputs.filter (fun i => construct_input_selector i.name == NodeId.input name)).getLast?
          = some a0 →
      (add_input_nodes_for_graph inputs Digraph.empty).lookupData (NodeId.input name) =
        some ⟨some INPUT_NODE_KIND, some (.inputDef a0), false⟩ ∧
      (add_input_nodes_for_graph inputs Digraph.empty).nodeIds.count (NodeId.input name) = 1) ∧
    (∀ (steps : List StepManifest) (g : Digraph) (name : String) (a0 : StepManifest),
      WFGraph g →
      g.lookupData (NodeId.step name) = none →
      (steps.filter (fun s => construct_step_selector s.name == NodeId.step name)).getLast?
          = some a0 →
      (add_steps_nodes_for_graph steps g).lookupData (NodeId.step name) =
        some ⟨some STEP_NODE_KIND, some (.stepDef a0), false⟩ ∧
      (add_steps_nodes_for_graph steps g).nodeIds.count (NodeId.step name) = 1) ∧
    (∀ (outputs : List JsonField) (g : Digraph) (name : String) (a0 : JsonField),
      WFGraph g →
      g.lookupData (NodeId.output name) = none →
      (outputs.filter (fun o => construct_output_name o.name == NodeId.output name)).getLast?
          = some a0 →
      (add_output_nodes_for_graph outputs g).lookupData (NodeId.output name) =
        some ⟨some OUTPUT_NODE_KIND, some (.outputDef a0), false⟩ ∧
      (add_output_nodes_for_graph outputs g).nodeIds.count (NodeId.output name) = 1) := by
  refine ⟨?_, ?_, ?_⟩
  · intro inputs name a0 h
    have hlook := foldl_add_node_lookup_last
      (fun i : InputSpec => construct_input_selector i.name) INPUT_NODE_KIND
      (fun i => .inputDef i) inputs Digraph.empty (NodeId.input name) a0 h
    have hlook2 : (add_input_nodes_for_graph inputs Digraph.empty).lookupData
        (NodeId.input name) = some ⟨some INPUT_NODE_KIND, some (.inputDef a0), false⟩ := by
      rw [add_input_nodes_for_graph, hlook]
      rfl
    refine ⟨hlook2, ?_⟩
    have hwf : WFGraph (add_input_nodes_for_graph inputs Digraph.empty) :=
      WF_foldl_add_node _ _ _ inputs Digraph.empty WF_empty
    exact List.count_eq_one_of_mem hwf.1
      (mem_nodeIds_of_lookupData_some _ _ _ hlook2)
  · intro steps g name a0 hwf hnone h
    have hlook := foldl_add_node_lookup_last
      (fun s : StepManifest => construct_step_selector s.name) STEP_NODE_KIND
      (fun s => .stepDef s) steps g (NodeId.step name) a0 h
    have hlook2 : (add_steps_nodes_for_graph steps g).lookupData (NodeId.step name) =
        some ⟨some STEP_NODE_KIND, some (.stepDef a0), false⟩ := by
      rw [add_steps_nodes_for_graph, hlook, hnone]
      rfl
    refine ⟨hlook2, ?_⟩
    have hwf2 : WFGraph (add_steps_nodes_for_graph steps g) :=
      WF_foldl_add_node _ _ _ steps g hwf
    exact List.count_eq_one_of_mem hwf2.1
      (mem_nodeIds_of_lookupData_some _ _ _ hlook2)
  · intro outputs g name a0 hwf hnone h
    have hlook := foldl_add_node_lookup_last
      (fun o : JsonField => construct_output_name o.name) OUTPUT_NODE_KIND
      (fun o => .outputDef o) outputs g (NodeId.output name) a0 h
    have hlook2 : (add_output_nodes_for_graph outputs g).lookupData (NodeId.output name) =
        some ⟨some OUTPUT_NODE_KIND, some (.outputDef a0), false⟩ := by
      rw [add_output_nodes_for_graph, hlook, hnone]
      rfl
    refine ⟨hlook2, ?_⟩
    have hwf2 : WFGraph (add_output_nodes_for_graph outputs g) :=
      WF_foldl_add_node _ _ _ outputs g hwf
    exact List.count_eq_one_of_mem hwf2.1
      (mem_nodeIds_of_lookupData_some _ _ _ hlook2)

/-- C10 witness: two inputs named `x` and two steps named `s`; the graph
keeps one node per id, holding the second definition. -/
theorem duplicate_names_last_occurrence_witness :
    (duplicate_inputs.filter
        (fun i => construct_input_selector i.name == NodeId.input "x")).getLast? =
      some ⟨"x", [kOther]⟩ ∧
    (add_input_nodes_for_graph duplicate_inputs Digraph.empty).lookupData
        (NodeId.input "x") =
      some ⟨some INPUT_NODE_KIND, some (.inputDef ⟨"x", [kOther]⟩), false⟩ ∧
    (add_input_nodes_for_graph duplicate_inputs Digraph.empty).nodeIds.count
        (NodeId.input "x") = 1 :=
  ⟨by decide,
    (duplicate_names_last_occurrence.1 duplicate_inputs "x" ⟨"x", [kOther]⟩ (by decide)).1,
    (duplicate_names_last_occurrence.1 duplicate_inputs "x" ⟨"x", [kOther]⟩ (by decide)).2⟩

theorem kmLookup_nil (key : String) : kmLookup [] key = [] := rfl

theorem kmLookup_cons (a : String × List BlockPropertyDefinition)
    (m : List (String × List BlockPropertyDefinition)) (key : String) :
    kmLookup (a :: m) key = if a.1 == key then a.2 else kmLookup m key := by
  rw [kmLookup, List.find?_cons]
  cases h : (a.1 == key) with
  | true => simp [h]
  | false => simp [h, kmLookup]

theorem mem_kmLookup_kmAdd (m : List (String × List BlockPropertyDefinition))
    (key : String) (pd0 : BlockPropertyDefinition) (key' : String)
    (pd : BlockPropertyDefinition) :
    pd ∈ kmLookup (kmAdd m key pd0) key' ↔
      pd ∈ kmLookup m key' ∨ (key' = key ∧ pd = pd0) := by
  induction m with
  | nil =>
    rw [kmAdd, kmLookup_cons, kmLookup_nil]
    by_cases h : (key == key') = true
    · rw [if_pos h]
      have hkk : key = key' := by simpa using h
      subst hkk
      simp
    · rw [if_neg h]
      simp only [List.not_mem_nil, false_or, false_iff]
      rintro ⟨h1, -⟩
      exact absurd h1.symm (by simpa using h)
  | cons a rest ih =>
    rcases a with ⟨k0, vs⟩
    rw [kmAdd]
    by_cases hk : (k0 == key) = true
    · rw [if_pos hk]
      have hk0 : k0 = key := by simpa using hk
      rw [kmLookup_cons, kmLookup_cons]
      by_cases hk' : (k0 == key') = true
      · have hk0' : k0 = key' := by simpa using hk'
        rw [if_pos hk', if_pos hk']
        rw [bpdInsert]
        by_cases hv : pd0 ∈ vs
        · rw [if_pos hv]
          constructor
          · intro h
            exact Or.inl h
          · rintro (h | ⟨-, rfl⟩)
            · exact h
            · exact hv
        · rw [if_neg hv]
          rw [List.mem_append, List.mem_singleton]
          constructor
          · rintro (h | rfl)
            · exact Or.inl h
            · exact Or.inr ⟨hk0 ▸ hk0'.symm, rfl⟩
          · rintro (h | ⟨-, rfl⟩)
            · exact Or.inl h
            · exact Or.inr rfl
      · rw [if_neg hk', if_neg hk']
        constructor
        · intro h
          exact Or.inl h
        · rintro (h | ⟨h1, -⟩)
          · exact h
          · exact absurd (hk0.trans h1.symm) (by simpa using hk')
    · rw [if_neg hk]
      rw [kmLookup_cons, kmLookup_cons]
      by_cases hk' : (k0 == key') = true
      · have hk0' : k0 = key' := by simpa using hk'
        rw [if_pos hk', if_pos hk']
        constructor
        · intro h
          exact Or.inl h
        · rintro (h | ⟨h1, -⟩)
          · exact h
          · exact absurd (hk0'.trans h1) (by simpa using hk)
      · rw [if_neg hk', if_neg hk']
        exact ih

theorem mem_wildcard_kinds_fold (b : BlockDescription) (sel : SchemaSelector)
    (ref : ReferenceDefinition) (m : List (String × List BlockPropertyDefinition))
    (key : String) (pd : BlockPropertyDefinition) :
    pd ∈ kmLookup (add_input_kinds_of_reference b sel ref m) key ↔
      pd ∈ kmLookup m key ∨
        (∃ kk ∈ ref.kind, key = kk.name ∧ pd = block_property_definition_of b sel ref) := by
  rw [add_input_kinds_of_reference]
  induction ref.kind generalizing m with
  | nil => simp
  | cons kk rest ih =>
    rw [List.foldl_cons, ih, mem_kmLookup_kmAdd]
    constructor
    · rintro ((h | ⟨hkey, hpd⟩) | ⟨kk0, hkk0, hkey, hpd⟩)
      · exact Or.inl h
      · exact Or.inr ⟨kk, List.mem_cons_self _ _, hkey, hpd⟩
      · exact Or.inr ⟨kk0, List.mem_cons_of_mem _ hkk0, hkey, hpd⟩
    · rintro (h | ⟨kk0, hkk0, hkey, hpd⟩)
      · exact Or.inl (Or.inl h)
      · rcases List.mem_cons.mp hkk0 with rfl | hkk0
        · exact Or.inl (Or.inr ⟨hkey, hpd⟩)
        · exact Or.inr ⟨kk0, hkk0, hkey, hpd⟩

theorem mem_wildcard_references_fold (b : BlockDescription) (sel : SchemaSelector)
    (m : List (String × List BlockPropertyDefinition)) (pd : BlockPropertyDefinition) :
    pd ∈ kmLookup (add_input_references_of_selector b sel m) WILDCARD_KIND.name ↔
      pd ∈ kmLookup m WILDCARD_KIND.name ∨
        ∃ ref ∈ sel.allowed_references,
          ref.selected_element ≠ STEP_AS_SELECTED_ELEMENT ∧
          pd = block_property_definition_of b sel ref := by
  rw [add_input_references_of_selector]
  induction sel.allowed_references generalizing m with
  | nil => simp
  | cons ref rest ih =>
    rw [List.foldl_cons]
    by_cases hstep : (ref.selected_element == STEP_AS_SELECTED_ELEMENT) = true
    · rw [if_pos hstep, ih]
      have hse : ref.selected_element = STEP_AS_SELECTED_ELEMENT := by simpa using hstep
      constructor
      · rintro (h | ⟨r, hr, hne, hpd⟩)
        · exact Or.inl h
        · exact Or.inr ⟨r, List.mem_cons_of_mem _ hr, hne, hpd⟩
      · rintro (h | ⟨r, hr, hne, hpd⟩)
        · exact Or.inl h
        · rcases List.mem_cons.mp hr with rfl | hr
          · exact absurd hse hne
          · exact Or.inr ⟨r, hr, hne, hpd⟩
    · rw [if_neg hstep, ih, mem_kmLookup_kmAdd, mem_wildcard_kinds_fold]
      have hse : ref.selected_element ≠ STEP_AS_SELECTED_ELEMENT := by
        intro he
        exact hstep (by simpa using he)
      constructor
      · rintro (((h | ⟨kk, -, -, hpd⟩) | ⟨-, hpd⟩) | ⟨r, hr, hne, hpd⟩)
        · exact Or.inl h
        · exact Or.inr ⟨ref, List.mem_cons_self _ _, hse, hpd⟩
        · exact Or.inr ⟨ref, List.mem_cons_self _ _, hse, hpd⟩
        · exact Or.inr ⟨r, List.mem_cons_of_mem _ hr, hne, hpd⟩
      · rintro (h | ⟨r, hr, hne, hpd⟩)
        · exact Or.inl (Or.inl (Or.inl h))
        · rcases List.mem_cons.mp hr with rfl | hr
          · exact Or.inl (Or.inr ⟨rfl, hpd⟩)
          · exact Or.inr ⟨r, hr, hne, hpd⟩

theorem mem_wildcard_selectors_fold (b : BlockDescription)
    (m : List (String × List BlockPropertyDefinition)) (pd : BlockPropertyDefinition) :
    pd ∈ kmLookup (add_input_selectors_of_block b m) WILDCARD_KIND.name ↔
      pd ∈ kmLookup m WILDCARD_KIND.name ∨
        ∃ sel ∈ b.selectors, ∃ ref ∈ sel.allowed_references,
          ref.selected_element ≠ STEP_AS_SELECTED_ELEMENT ∧
          pd = block_property_definition_of b sel ref := by
  rw [add_input_selectors_of_block]
  induction b.selectors generalizing m with
  | nil => simp
  | cons sel rest ih =>
    rw [List.foldl_cons, ih, mem_wildcard_references_fold]
    constructor
    · rintro ((h | ⟨r, hr, hne, hpd⟩) | ⟨s, hs, r, hr, hne, hpd⟩)
      · exact Or.inl h
      · exact Or.inr ⟨sel, List.mem_cons_self _ _, r, hr, hne, hpd⟩
      · exact Or.inr ⟨s, List.mem_cons_of_mem _ hs, r, hr, hne, hpd⟩
    · rintro (h | ⟨s, hs, r, hr, hne, hpd⟩)
      · exact Or.inl (Or.inl h)
      · rcases List.mem_cons.mp hs with rfl | hs
        · exact Or.inl (Or.inr ⟨r, hr, hne, hpd⟩)
        · exact Or.inr ⟨s, hs, r, hr, hne, hpd⟩

/-- C7 counterexample.  In a registry whose single block has one selector
property allowing only `step`-element references, the consumers-by-kind
index maps the wildcard kind to the empty set: the property is *not*
indexed, because a `step`-element allowed reference is skipped before
the wildcard entry is recorded. -/
theorem wildcard_skips_step_only_properties_cex :
    kmLookup (get_all_inputs_kind_major step_only_registry) WILDCARD_KIND.name = [] ∧
    step_only_registry.blocks.map (fun b => b.selectors.map (·.property_name)) =
      [["nextstep"]] :=
  ⟨rfl, rfl⟩

/-- C7 amended.  The wildcard kind maps to exactly the selector
properties contributed by allowed references whose selected element is
*not* `step`: a property whose only allowed references are `step`-element
is absent from the wildcard entry. -/
theorem wildcard_consumers_characterization (bd : BlocksDescription)
    (pd : BlockPropertyDefinition) :
    pd ∈ kmLookup (get_all_inputs_kind_major bd) WILDCARD_KIND.name ↔
      ∃ b ∈ bd.blocks, ∃ sel ∈ b.selectors, ∃ ref ∈ sel.allowed_references,
        ref.selected_element ≠ STEP_AS_SELECTED_ELEMENT ∧
        pd = block_property_definition_of b sel ref := by
  rw [get_all_inputs_kind_major]
  have hgen : ∀ (bs : List BlockDescription) (m : List (String × List BlockPropertyDefinition)),
      pd ∈ kmLookup (bs.foldl (fun m b => add_input_selectors_of_block b m) m)
          WILDCARD_KIND.name ↔
        pd ∈ kmLookup m WILDCARD_KIND.name ∨
          ∃ b ∈ bs, ∃ sel ∈ b.selectors, ∃ ref ∈ sel.allowed_references,
            ref.selected_element ≠ STEP_AS_SELECTED_ELEMENT ∧
            pd = block_property_definition_of b sel ref := by
    intro bs
    induction bs with
    | nil => simp
    | cons b rest ih =>
      intro m
      rw [List.foldl_cons, ih, mem_wildcard_selectors_fold]
      constructor
      · rintro ((h | ⟨s, hs, r, hr, hne, hpd⟩) | ⟨b0, hb0, s, hs, r, hr, hne, hpd⟩)
        · exact Or.inl h
        · exact Or.inr ⟨b, List.mem_cons_self _ _, s, hs, r, hr, hne, hpd⟩
        · exact Or.inr ⟨b0, List.mem_cons_of_mem _ hb0, s, hs, r, hr, hne, hpd⟩
      · rintro (h | ⟨b0, hb0, s, hs, r, hr, hne, hpd⟩)
        · exact Or.inl (Or.inl h)
        · rcases List.mem_cons.mp hb0 with rfl | hb0
          · exact Or.inl (Or.inr ⟨s, hs, r, hr, hne, hpd⟩)
          · exact Or.inr ⟨b0, hb0, s, hs, r, hr, hne, hpd⟩
  rw [hgen]
  simp only [kmLookup_nil, List.not_mem_nil, false_or]

end WorkflowCompiler
